import Mathlib

/-!
Verification of the 2PC/3PC atomic-commitment subsystem
(coordinator.py / participant.py) against its specification.

Python strings are embedded as `List Char` (`PStr`).  JSON payloads are
embedded as flat objects whose values are strings, booleans or null — the
fragment the protocol actually exchanges (`op` objects such as
`{"type": "SET", "key": "x", "value": "1"}`).  Fallible Python code
(KeyError, AttributeError, TypeError escaping a handler) is embedded with
`Except`/`Option`; a handler that raises sends no reply, which is modelled
by an empty event list.  Maps (`TX`, `kv`) are embedded as functions to
`Option`, matching Python dict content equality.  The participant WAL file
is embedded as the literal character contents of the file.
-/

deriving instance DecidableEq for Except

namespace DC

/-- Python strings, embedded as lists of characters. -/
abbrev PStr := List Char

/-- A single space, the WAL field separator. -/
def spc : PStr := [' ']

/-- The `{` character (JSON object open). -/
def lbrace : Char := Char.ofNat 123

/-- The `}` character (JSON object close). -/
def rbrace : Char := Char.ofNat 125

/-- Python `str.upper()` restricted to ASCII, which is all the protocol compares
(`"SET"`, vote tokens). -/
def pyUpper (s : PStr) : PStr := s.map Char.toUpper

/-- JSON values of the flat fragment the protocol exchanges. -/
inductive JVal where
  | jstr (s : PStr)
  | jbool (b : Bool)
  | jnull
deriving DecidableEq, Repr

/-- A flat JSON object (Python dict), as an insertion-ordered association list. -/
abbrev Op := List (PStr × JVal)

/-- Python `str(v)` on a JSON value (used by `apply_op` on `op["key"]`,
`op["value"]`). -/
def pyStr : JVal → PStr
  | .jstr s => s
  | .jbool true => ("True").data
  | .jbool false => ("False").data
  | .jnull => ("None").data

/-- Python `d[k]` / `d.get(k)` on the embedded dict: the value at the key. -/
def pyGet (op : Op) (k : PStr) : Option JVal := List.lookup k op

-- String constants of the protocol.

def sSET : PStr := ("SET").data

def sYES : PStr := ("YES").data

def sNO : PStr := ("NO").data

def sNoTimeout : PStr := ("NO_TIMEOUT").data

def sCOMMIT : PStr := ("COMMIT").data

def sABORT : PStr := ("ABORT").data

def sPREPARE : PStr := ("PREPARE").data

def sCAN_COMMIT : PStr := ("CAN_COMMIT").data

def sPRECOMMIT : PStr := ("PRECOMMIT").data

def sDECISION : PStr := ("DECISION").data

def sType : PStr := ("type").data

def sKey : PStr := ("key").data

def sValue : PStr := ("value").data

/-!  ## JSON serialization (`json.dumps` / `json.loads`)

`json.dumps` with default separators renders a flat dict as
`{"k": v, "k2": v2}`.  The escaper covers `"` and `\`; control characters
(which CPython would additionally escape) are excluded by the safety side
conditions carried by the WAL theorems. -/

/-- Escape one character as `json.dumps` does for `"` and `\`. -/
def escChar (c : Char) : PStr := if c = '"' ∨ c = '\\' then ['\\', c] else [c]

/-- Escape a string body for JSON output. -/
def escStr (s : PStr) : PStr := (s.map escChar).flatten

/-- Render a JSON string literal. -/
def dumpStr (s : PStr) : PStr := '"' :: (escStr s ++ ['"'])

/-- Render a JSON value. -/
def dumpVal : JVal → PStr
  | .jstr s => dumpStr s
  | .jbool true => ("true").data
  | .jbool false => ("false").data
  | .jnull => ("null").data

/-- Render the members of a flat JSON object with separators `", "` / `": "`. -/
def dumpMembers : Op → PStr
  | [] => []
  | (k, v) :: [] => dumpStr k ++ (": ").data ++ dumpVal v
  | (k, v) :: tl => dumpStr k ++ (": ").data ++ dumpVal v ++ (", ").data ++ dumpMembers tl

/-- `json.dumps` on a flat object. -/
def jsonDumps (op : Op) : PStr := lbrace :: (dumpMembers op ++ [rbrace])

/-- Parse a JSON string body after the opening quote, undoing `escStr`;
returns the decoded string and the rest after the closing quote. -/
def parseStringBody : PStr → Option (PStr × PStr)
  | [] => none
  | c :: rest =>
      if c = '\\' then
        match rest with
        | [] => none
        | c2 :: rest2 =>
            if c2 = '"' ∨ c2 = '\\' then
              (parseStringBody rest2).map (fun p => (c2 :: p.1, p.2))
            else none
      else if c = '"' then some ([], rest)
      else (parseStringBody rest).map (fun p => (c :: p.1, p.2))

/-- Parse one JSON value of the flat fragment. -/
def parseVal : PStr → Option (JVal × PStr)
  | '"' :: rest => (parseStringBody rest).map (fun p => (JVal.jstr p.1, p.2))
  | 't' :: 'r' :: 'u' :: 'e' :: rest => some (.jbool true, rest)
  | 'f' :: 'a' :: 'l' :: 's' :: 'e' :: rest => some (.jbool false, rest)
  | 'n' :: 'u' :: 'l' :: 'l' :: rest => some (.jnull, rest)
  | _ => none

/-- Parse the members of a non-empty object, consuming the closing brace;
fueled (one unit per member). -/
def parseMembers : Nat → PStr → Option (Op × PStr)
  | 0, _ => none
  | fuel + 1, s =>
      match s with
      | '"' :: rest =>
          match parseStringBody rest with
          | none => none
          | some (k, r1) =>
              match r1 with
              | ':' :: ' ' :: r2 =>
                  match parseVal r2 with
                  | none => none
                  | some (v, r3) =>
                      match r3 with
                      | c :: r4 =>
                          if c = ',' then
                            match r4 with
                            | ' ' :: r5 =>
                                (parseMembers fuel r5).map
                                  (fun p => ((k, v) :: p.1, p.2))
                            | _ => none
                          else if c = rbrace then some ([(k, v)], r4) else none
                      | [] => none
              | _ => none
      | _ => none

/-- Parse one flat JSON object, returning it and the remaining input. -/
def parseObj (s : PStr) : Option (Op × PStr) :=
  match s with
  | [] => none
  | c :: rest =>
      if c = lbrace then
        match rest with
        | [] => none
        | d :: r2 => if d = rbrace then some ([], r2) else parseMembers rest.length rest
      else none

/-- `json.loads` on the flat fragment: the whole input must be one object. -/
def jsonLoads (s : PStr) : Option Op :=
  match parseObj s with
  | some (op, []) => some op
  | _ => none

/-! ## Participant state (participant.py)

Globals `TX` and `kv` are embedded as maps; the WAL file as its literal
character contents (`wal_append` writes `line.rstrip("\n") + "\n"`). -/

/-- The participant transaction states (the closed set of `state` strings). -/
inductive TxState where
  | READY
  | PRECOMMIT
  | COMMITTED
  | ABORTED
deriving DecidableEq, Repr

/-- One participant transaction record: `{"state": ..., "op": ...}`.
The wall-clock `ts` field is not embedded (it carries no protocol content). -/
structure PRec where
  state : TxState
  op : Option Op
deriving DecidableEq, Repr

/-- The participant node state: `TX` table, `kv` store, WAL file contents. -/
structure PState where
  tx : PStr → Option PRec
  kv : PStr → Option PStr
  wal : PStr

/-- Fresh participant: empty `TX`, empty `kv`, empty WAL file. -/
def initPState : PState := ⟨fun _ => none, fun _ => none, []⟩

/-- `validate_op`: `op.get("type", "").upper() == "SET"`.  On a non-string
`type` value, `.upper()` raises `AttributeError` (embedded as `.error`). -/
def validateOp (op : Op) : Except Unit Bool :=
  match (pyGet op sType).getD (.jstr []) with
  | .jstr s => .ok (pyUpper s = sSET)
  | _ => .error ()

/-- `apply_op`: `if op["type"].upper() == "SET": kv[str(op["key"])] = str(op["value"])`.
`KeyError` on a missing field and `AttributeError` on a non-string `type`
are embedded as `.error`; a present non-`SET` type is a silent no-op. -/
def applyOp (op : Op) (kv : PStr → Option PStr) : Except Unit (PStr → Option PStr) :=
  match pyGet op sType with
  | none => .error ()
  | some (.jstr t) =>
      if pyUpper t = sSET then
        match pyGet op sKey, pyGet op sValue with
        | some k, some v => .ok (Function.update kv (pyStr k) (some (pyStr v)))
        | _, _ => .error ()
      else .ok kv
  | some _ => .error ()

/-- Python `line.rstrip("\n")`. -/
def pyRstripNl (l : PStr) : PStr := (l.reverse.dropWhile (· = '\n')).reverse

/-- `wal_append`: append `line.rstrip("\n") + "\n"` to the WAL file. -/
def walAppendStr (w line : PStr) : PStr := w ++ pyRstripNl line ++ ['\n']

/-- The POST requests of the participant HTTP surface (bodies with the fields
the handlers read). -/
inductive Req where
  | prepare (txid : PStr) (op : Op)
  | canCommit (txid : PStr) (op : Op)
  | precommit (txid : PStr)
  | commit (txid : PStr)
  | abort (txid : PStr)
deriving DecidableEq, Repr

/-- Reply bodies of the participant. -/
inductive Reply where
  | voteR (v : PStr)
  | okR
deriving DecidableEq, Repr

/-- Externally visible events of one handler invocation, in program order:
durable WAL appends and the HTTP reply.  A handler that raises emits no
reply (the server closes the connection without answering). -/
inductive Ev where
  | walAppend (line : PStr)
  | reply (code : Nat) (body : Reply)
deriving DecidableEq, Repr

/-- `Handler.do_POST` of participant.py, as a state transformer returning the
successor state and the event list of the invocation.  Error paths (uncaught
Python exceptions) leave the state unchanged and emit no event. -/
def handleReq : Req → PState → PState × List Ev
  | .prepare txid op, s =>
      match validateOp op with
      | .error _ => (s, [])
      | .ok b =>
          let v := if b then sYES else sNO
          let r0 : PRec := ⟨if b then .READY else .ABORTED, some op⟩
          let line := txid ++ spc ++ sPREPARE ++ spc ++ v ++ spc ++ jsonDumps op
          ({ s with tx := Function.update s.tx txid (some r0),
                    wal := walAppendStr s.wal line },
           [.walAppend line, .reply 200 (.voteR v)])
  | .canCommit txid op, s =>
      match validateOp op with
      | .error _ => (s, [])
      | .ok b =>
          let v := if b then sYES else sNO
          let line := txid ++ spc ++ sCAN_COMMIT ++ spc ++ v ++ spc ++ jsonDumps op
          ({ s with tx := Function.update s.tx txid (some ⟨.READY, some op⟩),
                    wal := walAppendStr s.wal line },
           [.walAppend line, .reply 200 (.voteR v)])
  | .precommit txid, s =>
      match s.tx txid with
      | none => (s, [])
      | some r =>
          let line := txid ++ spc ++ sPRECOMMIT
          ({ s with tx := Function.update s.tx txid (some ⟨.PRECOMMIT, r.op⟩),
                    wal := walAppendStr s.wal line },
           [.walAppend line, .reply 200 .okR])
  | .commit txid, s =>
      match s.tx txid with
      | none => (s, [])
      | some r =>
          match r.op with
          | none => (s, [])
          | some op =>
              match applyOp op s.kv with
              | .error _ => (s, [])
              | .ok kv1 =>
                  let line := txid ++ spc ++ sCOMMIT
                  ({ s with tx := Function.update s.tx txid (some ⟨.COMMITTED, some op⟩),
                            kv := kv1,
                            wal := walAppendStr s.wal line },
                   [.walAppend line, .reply 200 .okR])
  | .abort txid, s =>
      let line := txid ++ spc ++ sABORT
      ({ s with tx := Function.update s.tx txid (some ⟨.ABORTED, none⟩),
                wal := walAppendStr s.wal line },
       [.walAppend line, .reply 200 .okR])

/-- Run a sequence of requests against a fresh participant. -/
def runReqs (rs : List Req) : PState := rs.foldl (fun s r => (handleReq r s).1) initPState

/-- The HTTP reply of an invocation, if one was sent. -/
def replyOf (evs : List Ev) : Option (Nat × Reply) :=
  evs.findSome? (fun e => match e with
    | .reply c b => some (c, b)
    | _ => none)

/-! ## WAL replay (participant.py `wal_replay`) -/

/-- Python whitespace as stripped by `str.strip()` (ASCII subset). -/
def isPySpace (c : Char) : Bool :=
  c = ' ' ∨ c = '\t' ∨ c = '\n' ∨ c = '\r' ∨ c = Char.ofNat 11 ∨ c = Char.ofNat 12

/-- Python `str.strip()`: drop leading and trailing whitespace. -/
def pyStrip (s : PStr) : PStr :=
  ((s.dropWhile isPySpace).reverse.dropWhile isPySpace).reverse

/-- Break a string at its first occurrence of `sep`, if any. -/
def splitOnce (sep : Char) : PStr → Option (PStr × PStr)
  | [] => none
  | c :: cs =>
      if c = sep then some ([], cs)
      else (splitOnce sep cs).map (fun p => (c :: p.1, p.2))

/-- Python `s.split(sep, maxsplit)` with a one-character separator: split at
each single occurrence of `sep`, at most `maxsplit` times. -/
def pySplit (s : PStr) (sep : Char) : Nat → List PStr
  | 0 => [s]
  | n + 1 =>
      match splitOnce sep s with
      | none => [s]
      | some (a, b) => a :: pySplit b sep n

/-- Iterating a text file line by line, as Python `for line in f`: each
yielded line keeps its trailing newline; a final unterminated chunk is
yielded as-is. -/
def fileLinesAux (acc : PStr) : PStr → List PStr
  | [] => if acc = [] then [] else [acc.reverse]
  | c :: rest =>
      if c = '\n' then (acc.reverse ++ ['\n']) :: fileLinesAux [] rest
      else fileLinesAux (c :: acc) rest

/-- The lines of a file's contents. -/
def fileLines (s : PStr) : List PStr := fileLinesAux [] s

/-- The state rebuilt by replay: `TX` table and `kv` store. -/
structure RState where
  tx : PStr → Option PRec
  kv : PStr → Option PStr

/-- Replay of one WAL line (the body of the `for` loop of `wal_replay`).
Uncaught exceptions during replay (IndexError, ValueError on unpacking,
json errors, KeyError on a missing record, apply_op failures) are embedded
as `.error`; an unrecognized command is silently skipped. -/
def replayLine (t : RState) (line : PStr) : Except Unit RState :=
  match pySplit (pyStrip line) ' ' 2 with
  | [] => .ok t
  | [_] => .error ()
  | txid :: cmd :: restParts =>
      if cmd = sPREPARE ∨ cmd = sCAN_COMMIT then
        match restParts with
        | [] => .error ()
        | rest :: _ =>
            match pySplit rest ' ' 1 with
            | [vote, opJson] =>
                match jsonLoads opJson with
                | none => .error ()
                | some op =>
                    .ok ⟨Function.update t.tx txid
                           (some ⟨if vote = sYES then .READY else .ABORTED, some op⟩),
                         t.kv⟩
            | _ => .error ()
      else if cmd = sPRECOMMIT then
        match t.tx txid with
        | none => .error ()
        | some r => .ok ⟨Function.update t.tx txid (some ⟨.PRECOMMIT, r.op⟩), t.kv⟩
      else if cmd = sCOMMIT then
        match t.tx txid with
        | none => .error ()
        | some r =>
            match r.op with
            | none => .error ()
            | some op =>
                match applyOp op t.kv with
                | .error _ => .error ()
                | .ok kv1 => .ok ⟨Function.update t.tx txid (some ⟨.COMMITTED, some op⟩), kv1⟩
      else if cmd = sABORT then
        .ok ⟨Function.update t.tx txid (some ⟨.ABORTED, none⟩), t.kv⟩
      else .ok t

/-- `wal_replay`: fold the replay of each file line over the empty state. -/
def walReplay (w : PStr) : Except Unit RState :=
  (fileLines w).foldlM replayLine ⟨fun _ => none, fun _ => none⟩

/-! ## Coordinator (coordinator.py)

`two_pc` / `three_pc` are embedded as functions of the per-participant call
outcomes of the vote phase: each `post_json` either returns a response body
whose optional `vote` field is read with `resp.get("vote", "NO")`, or fails
(transport error / timeout, the `except` arm). -/

/-- Outcome of one vote-phase RPC to a participant. -/
inductive CallRes where
  | ok (vote : Option PStr)
  | fail
deriving DecidableEq, Repr

/-- Externally visible coordinator events, in program order. -/
inductive CEv where
  | sendTo (p : PStr) (endpoint : PStr)
  | walAppend (line : PStr)
deriving DecidableEq, Repr

/-- One iteration of the vote-collection loop: record `resp.get("vote", "NO")`
on success and `"NO_TIMEOUT"` on failure (the `except` arm, which also clears
`all_yes`); `all_yes` is cleared whenever the recorded vote is not `"YES"`. -/
def gatherStep (acc : List (PStr × PStr) × Bool) (pr : PStr × CallRes) :
    List (PStr × PStr) × Bool :=
  match pr.2 with
  | .fail => (acc.1 ++ [(pr.1, sNoTimeout)], false)
  | .ok v? =>
      let v := v?.getD sNO
      (acc.1 ++ [(pr.1, v)], acc.2 && decide (v = sYES))

/-- The vote-collection loop shared textually by `two_pc` and `three_pc`. -/
def gather (prs : List (PStr × CallRes)) : List (PStr × PStr) × Bool :=
  prs.foldl gatherStep ([], true)

/-- Result of a coordinator protocol run. -/
structure CoordOut where
  decision : PStr
  votes : List (PStr × PStr)
  events : List CEv

def epPrepare : PStr := ("/prepare").data

def epCanCommit : PStr := ("/can_commit").data

def epPrecommitP : PStr := ("/precommit").data

def epCommit : PStr := ("/commit").data

def epAbort : PStr := ("/abort").data

/-- The coordinator WAL record `"{txid} DECISION {decision}"`. -/
def decisionLine (txid d : PStr) : PStr := txid ++ spc ++ sDECISION ++ spc ++ d

/-- `two_pc`: collect votes, decide `COMMIT` iff `all_yes`, persist the
decision, then dispatch it to every participant (delivery failures are
swallowed; the send events record the attempts). -/
def twoPCrun (txid : PStr) (prs : List (PStr × CallRes)) : CoordOut :=
  let g := gather prs
  let d := if g.2 then sCOMMIT else sABORT
  let ep := if d = sCOMMIT then epCommit else epAbort
  { decision := d
    votes := g.1
    events := prs.map (fun pr => CEv.sendTo pr.1 epPrepare)
      ++ [CEv.walAppend (decisionLine txid d)]
      ++ prs.map (fun pr => CEv.sendTo pr.1 ep) }

/-- `three_pc`: collect votes; if `all_yes`, send `precommit` to every
participant and decide `COMMIT`, else decide `ABORT`; persist, then
dispatch as in `two_pc`. -/
def threePCrun (txid : PStr) (prs : List (PStr × CallRes)) : CoordOut :=
  let g := gather prs
  let d := if g.2 then sCOMMIT else sABORT
  let ep := if d = sCOMMIT then epCommit else epAbort
  { decision := d
    votes := g.1
    events := prs.map (fun pr => CEv.sendTo pr.1 epCanCommit)
      ++ (if g.2 then prs.map (fun pr => CEv.sendTo pr.1 epPrecommitP) else [])
      ++ [CEv.walAppend (decisionLine txid d)]
      ++ prs.map (fun pr => CEv.sendTo pr.1 ep) }

/-- The vote recorded by the coordinator for one call outcome:
`resp.get("vote", "NO")` on success, the synthetic `NO_TIMEOUT` on failure. -/
def recVote : CallRes → PStr
  | .ok v? => v?.getD sNO
  | .fail => sNoTimeout

/-! ## Protocol system for the agreement claim

One transaction (`txid`, `op`, protocol), one coordinator, `n` participants.
The coordinator control state follows `two_pc`/`three_pc`: a vote-collection
phase (each participant answered once, or timed out), the fsynced `DECISION`
append, then decision delivery — initial dispatch, the retry loop and
post-crash redelivery all send the decision recorded at the append, so they
are covered by one delivery step that can fire any number of times.
Participants run the audited `handleReq` embedding. -/

/-- The coordinator control phase for one transaction. -/
inductive CPhase where
  | collecting
  | decided (d : PStr)
deriving DecidableEq

/-- Which protocol drives the transaction. -/
inductive Proto where
  | p2
  | p3
deriving DecidableEq

/-- The vote-phase request sent to participants: `/prepare` under 2PC,
`/can_commit` under 3PC. -/
def voteReq (pr : Proto) (txid : PStr) (op : Op) : Req :=
  match pr with
  | .p2 => .prepare txid op
  | .p3 => .canCommit txid op

/-- The decision computed from the recorded votes: `COMMIT` iff `all_yes`. -/
def sysDecision {n : Nat} (v : Fin n → Option PStr) : PStr :=
  if ∀ j, v j = some sYES then sCOMMIT else sABORT

/-- Global state: coordinator phase, recorded votes, coordinator WAL decision
records, participant nodes, and the decisions participants have acknowledged
(an `{ok:true}` reply to a delivered `commit`/`abort`). -/
structure Sys (n : Nat) where
  phase : CPhase
  votes : Fin n → Option PStr
  log : List PStr
  parts : Fin n → PState
  acks : List PStr

/-- Initial state: nothing collected, nothing logged, fresh participants. -/
def initSys (n : Nat) : Sys n :=
  ⟨.collecting, fun _ => none, [], fun _ => initPState, []⟩

/-- One atomic step of the transaction.  Vote steps cover: reply received
(`voteRecv`), request processed but reply lost or handler raised
(`voteFailProc`), request never processed (`voteFailLost`) — the latter two
record the synthetic `NO_TIMEOUT`.  `precommitSend` fires only under 3PC
after a unanimous `YES` collection, mirroring `three_pc`.  `decide` appends
the WAL record.  `deliver` sends the logged decision's endpoint to one
participant (initial dispatch or any retry); the participant acknowledges
when its handler replies `{ok:true}`. -/
inductive Step (pr : Proto) (txid : PStr) (op : Op) :
    {n : Nat} → Sys n → Sys n → Prop where
  | voteRecv {n : Nat} (s : Sys n) (i : Fin n) (v : PStr) (p1 : PState) (evs : List Ev)
      (hph : s.phase = .collecting) (hv : s.votes i = none)
      (hrun : handleReq (voteReq pr txid op) (s.parts i) = (p1, evs))
      (hrep : replyOf evs = some (200, .voteR v)) :
      Step pr txid op s { s with parts := Function.update s.parts i p1,
                                 votes := Function.update s.votes i (some v) }
  | voteFailProc {n : Nat} (s : Sys n) (i : Fin n)
      (hph : s.phase = .collecting) (hv : s.votes i = none) :
      Step pr txid op s
        { s with parts := Function.update s.parts i
                   (handleReq (voteReq pr txid op) (s.parts i)).1,
                 votes := Function.update s.votes i (some sNoTimeout) }
  | voteFailLost {n : Nat} (s : Sys n) (i : Fin n)
      (hph : s.phase = .collecting) (hv : s.votes i = none) :
      Step pr txid op s { s with votes := Function.update s.votes i (some sNoTimeout) }
  | precommitSend {n : Nat} (s : Sys n) (i : Fin n)
      (hpr : pr = .p3) (hph : s.phase = .collecting)
      (hall : ∀ j, s.votes j = some sYES) :
      Step pr txid op s
        { s with parts := Function.update s.parts i
                   (handleReq (.precommit txid) (s.parts i)).1 }
  | decide {n : Nat} (s : Sys n)
      (hph : s.phase = .collecting) (hdone : ∀ j, (s.votes j).isSome) :
      Step pr txid op s { s with phase := .decided (sysDecision s.votes),
                                 log := s.log ++ [sysDecision s.votes] }
  | deliver {n : Nat} (s : Sys n) (i : Fin n) (d : PStr) (p1 : PState) (evs : List Ev)
      (hph : s.phase = .decided d)
      (hrun : handleReq (if d = sCOMMIT then Req.commit txid else Req.abort txid)
                (s.parts i) = (p1, evs)) :
      Step pr txid op s
        { s with parts := Function.update s.parts i p1,
                 acks := if replyOf evs = some (200, .okR) then s.acks ++ [d] else s.acks }

/-- Reachability of a global state from the initial state. -/
inductive Reach (pr : Proto) (txid : PStr) (op : Op) {n : Nat} : Sys n → Prop where
  | init : Reach pr txid op (initSys n)
  | step {s s1 : Sys n} : Reach pr txid op s → Step pr txid op s s1 → Reach pr txid op s1

/-! ## Concrete fixtures for witnesses and counterexamples -/

/-- A valid operation: `{"type": "SET", "key": "x", "value": "1"}`. -/
def opSET : Op := [(sType, .jstr sSET), (sKey, .jstr ("x").data), (sValue, .jstr ("1").data)]

/-- An invalid operation: `{"type": "DEL", "key": "x", "value": "1"}`. -/
def opDEL : Op := [(sType, .jstr ("DEL").data), (sKey, .jstr ("x").data), (sValue, .jstr ("1").data)]

/-- An operation whose `type` field is the JSON boolean `true`. -/
def opBadType : Op := [(sType, .jbool true)]

/-- A concrete transaction id. -/
def txT : PStr := ("t1").data

/-- A concrete participant base URL. -/
def pOne : PStr := ("http://localhost:8001").data

/-! ## Side conditions for WAL faithfulness

The WAL is a space-delimited text format, so the round-trip theorems carry
the well-formedness conditions the spec imposes on its tokens: a `txid` is a
non-empty string without whitespace, and operation strings avoid control
characters (which CPython's `json.dumps` would `\uXXXX`-escape, a codepath
outside the embedded fragment). -/

/-- A well-formed transaction id: non-empty, no whitespace characters. -/
def txidSafeB (t : PStr) : Bool := (decide (t ≠ [])) && t.all (fun c => !(isPySpace c))

/-- A string free of ASCII control characters. -/
def strPySafe (s : PStr) : Bool := s.all (fun c => 32 ≤ c.toNat)

/-- A JSON value whose string (if any) is control-free. -/
def valPySafe : JVal → Bool
  | .jstr s => strPySafe s
  | _ => true

/-- All strings of an operation are control-free. -/
def opPySafe (op : Op) : Bool :=
  op.all (fun kv => strPySafe kv.1 && valPySafe kv.2)

/-- The transaction id a request carries. -/
def reqTxid : Req → PStr
  | .prepare t _ => t
  | .canCommit t _ => t
  | .precommit t => t
  | .commit t => t
  | .abort t => t

/-- Well-formedness of one request's tokens. -/
def reqSafeB (r : Req) : Bool :=
  txidSafeB (reqTxid r) &&
    (match r with
     | .prepare _ op => opPySafe op
     | .canCommit _ op => opPySafe op
     | _ => true)

/-- Does a `can_commit` request carry a valid operation?  (`true` for every
other request.) -/
def ccValidB : Req → Bool
  | .canCommit _ op => decide (validateOp op = .ok true)
  | _ => true

/-- The replayed state of one transaction: `none` when replay itself raises. -/
def replayTxOf (w : PStr) (k : PStr) : Option TxState :=
  match walReplay w with
  | .ok t => (t.tx k).map PRec.state
  | .error _ => none

/-- The protocol-visible state of one transaction at a participant node. -/
def stateAt (txid : PStr) (p : PState) : Option TxState := (p.tx txid).map PRec.state

/-- The inductive invariant of the protocol system behind the agreement
theorem: the log mirrors the phase, the decision is determined by the
recorded votes, `COMMITTED` appears only after a `COMMIT` decision,
`ABORTED` during collection is tied to a non-`YES` recorded vote, and every
acknowledgment names the decided outcome. -/
def SysInv (txid : PStr) {n : Nat} (s : Sys n) : Prop :=
  (s.phase = .collecting → s.log = [])
  ∧ (∀ d, s.phase = .decided d →
      s.log = [d] ∧ d = sysDecision s.votes ∧ ∀ j, (s.votes j).isSome)
  ∧ (∀ i, stateAt txid (s.parts i) = some .COMMITTED → s.phase = .decided sCOMMIT)
  ∧ (∀ i, stateAt txid (s.parts i) = some .ABORTED →
      (s.votes i = some sNO ∨ s.votes i = some sNoTimeout) ∨ s.phase = .decided sABORT)
  ∧ (∀ a ∈ s.acks, s.phase = .decided a)

/-! # Theorems -/

/-- Characterization of the vote-collection fold. -/
lemma gather_go (prs : List (PStr × CallRes)) :
    ∀ (acc : List (PStr × PStr)) (b : Bool),
      prs.foldl gatherStep (acc, b) =
        (acc ++ prs.map (fun pr => (pr.1, recVote pr.2)),
         b && prs.all (fun pr => decide (recVote pr.2 = sYES))) := by
  induction prs with
  | nil => intro acc b; simp
  | cons hd tl ih =>
      intro acc b
      obtain ⟨p, r⟩ := hd
      cases r with
      | ok v? =>
          simp only [List.foldl_cons, gatherStep, List.all_cons, recVote, ih]
          simp [Bool.and_assoc]
      | fail =>
          simp only [List.foldl_cons, gatherStep, List.all_cons, recVote, ih]
          have : decide (sNoTimeout = sYES) = false := by decide
          simp [this]

/-- The recorded votes, in participant order. -/
lemma gather_votes (prs : List (PStr × CallRes)) :
    (gather prs).1 = prs.map (fun pr => (pr.1, recVote pr.2)) := by
  simp [gather, gather_go]

/-- The `all_yes` flag holds iff every recorded vote is `YES`. -/
lemma gather_flag (prs : List (PStr × CallRes)) :
    (gather prs).2 = prs.all (fun pr => decide (recVote pr.2 = sYES)) := by
  simp [gather, gather_go]

lemma if_decision_eq_commit (b : Bool) :
    ((if b then sCOMMIT else sABORT) = sCOMMIT) ↔ b = true := by
  cases b with
  | true => simp
  | false =>
      simp only [if_neg Bool.false_ne_true, Bool.false_eq_true, iff_false]
      decide

lemma all_votes_yes_iff (prs : List (PStr × CallRes)) :
    ((prs.all fun pr => decide (recVote pr.2 = sYES)) = true) ↔
      (∀ e ∈ prs.map (fun pr => (pr.1, recVote pr.2)), e.2 = sYES) := by
  constructor
  · intro h e he
    rw [List.mem_map] at he
    obtain ⟨pr, hpr, rfl⟩ := he
    exact of_decide_eq_true (List.all_eq_true.mp h pr hpr)
  · intro h
    refine List.all_eq_true.mpr (fun pr hpr => ?_)
    exact decide_eq_true (h _ (List.mem_map_of_mem _ hpr))

/-- C2.  `Start(txid, op, protocol)` decides `COMMIT` iff every recorded vote
is `YES`, in both 2PC and 3PC; a failed or timed-out vote call (the per-call
transport timeout, `TIMEOUT_S = 2.0`, is a transport parameter embedded as
the `fail` outcome) is recorded as the synthetic `NO_TIMEOUT`; any recorded
vote other than `YES` forces the global decision `ABORT`. -/
theorem C2_decision_rule (txid : PStr) (prs : List (PStr × CallRes)) :
    ((twoPCrun txid prs).decision = sCOMMIT ↔
        ∀ e ∈ (twoPCrun txid prs).votes, e.2 = sYES)
    ∧ ((threePCrun txid prs).decision = sCOMMIT ↔
        ∀ e ∈ (threePCrun txid prs).votes, e.2 = sYES)
    ∧ (twoPCrun txid prs).votes = prs.map (fun pr => (pr.1, recVote pr.2))
    ∧ (threePCrun txid prs).votes = prs.map (fun pr => (pr.1, recVote pr.2))
    ∧ recVote CallRes.fail = sNoTimeout
    ∧ ((∃ e ∈ (twoPCrun txid prs).votes, e.2 ≠ sYES) →
        (twoPCrun txid prs).decision = sABORT)
    ∧ ((∃ e ∈ (threePCrun txid prs).votes, e.2 ≠ sYES) →
        (threePCrun txid prs).decision = sABORT) := by
  have hv2 : (twoPCrun txid prs).votes = prs.map (fun pr => (pr.1, recVote pr.2)) := by
    simp [twoPCrun, gather_votes]
  have hv3 : (threePCrun txid prs).votes = prs.map (fun pr => (pr.1, recVote pr.2)) := by
    simp [threePCrun, gather_votes]
  have hd2 : (twoPCrun txid prs).decision = if (gather prs).2 then sCOMMIT else sABORT := rfl
  have hd3 : (threePCrun txid prs).decision = if (gather prs).2 then sCOMMIT else sABORT := rfl
  have key : ((if (gather prs).2 then sCOMMIT else sABORT) = sCOMMIT) ↔
      (∀ e ∈ prs.map (fun pr => (pr.1, recVote pr.2)), e.2 = sYES) := by
    rw [if_decision_eq_commit, gather_flag, all_votes_yes_iff]
  have habort : (∃ e ∈ prs.map (fun pr => (pr.1, recVote pr.2)), e.2 ≠ sYES) →
      (if (gather prs).2 then sCOMMIT else sABORT) = sABORT := by
    rintro ⟨e, he, hne⟩
    rcases Bool.eq_false_or_eq_true (gather prs).2 with h | h
    · rw [gather_flag] at h
      exact absurd ((all_votes_yes_iff prs).mp h e he) hne
    · rw [h]; simp
  refine ⟨by rw [hd2, hv2]; exact key, by rw [hd3, hv3]; exact key,
          hv2, hv3, rfl, ?_, ?_⟩
  · rw [hd2, hv2]; exact habort
  · rw [hd3, hv3]; exact habort

/-- Witness for C2 at a concrete input: one participant answered `YES`, one
timed out; the recorded votes contain `NO_TIMEOUT` and the decision is
`ABORT`. -/
theorem C2_decision_rule_witness :
    (twoPCrun txT [(pOne, CallRes.ok (some sYES)), (pOne, CallRes.fail)]).decision
      = sABORT := by
  have h := C2_decision_rule txT [(pOne, CallRes.ok (some sYES)), (pOne, CallRes.fail)]
  exact h.2.2.2.2.2.1 ⟨(pOne, sNoTimeout), by decide, by decide⟩

/-- C4, at the failing input.  The claim says a failed validation leaves the
record `ABORTED` (never `READY`) on both endpoints.  `/prepare` does so, but
`/can_commit` on the invalid operation `{"type": "DEL", ...}` replies
`{vote: NO}` while storing `state = "READY"`: the handler writes `READY`
unconditionally (participant.py line 213), contradicting both the spec and
the participant's own `wal_replay`, which rebuilds a `CAN_COMMIT NO` record
as `ABORTED`. -/
theorem C4_canCommit_invalid_leaves_ready :
    replyOf (handleReq (.canCommit txT opDEL) initPState).2 = some (200, .voteR sNO)
    ∧ ((handleReq (.canCommit txT opDEL) initPState).1.tx txT).map PRec.state
        = some TxState.READY
    ∧ replyOf (handleReq (.prepare txT opDEL) initPState).2 = some (200, .voteR sNO)
    ∧ ((handleReq (.prepare txT opDEL) initPState).1.tx txT).map PRec.state
        = some TxState.ABORTED := by
  refine ⟨by decide, by decide, by decide, by decide⟩

/-- C5, at the failing input.  After `prepare(SET)` then `commit`, the record
is terminal `COMMITTED`; a subsequent `/abort` for the same txid overwrites
it to `ABORTED` unconditionally (participant.py line 198), reverting a
terminal state, which the spec forbids. -/
theorem C5_abort_reverts_committed :
    (((runReqs [Req.prepare txT opSET, Req.commit txT]).tx txT).map PRec.state
        = some TxState.COMMITTED)
    ∧ (((handleReq (.abort txT) (runReqs [Req.prepare txT opSET, Req.commit txT])).1.tx
          txT).map PRec.state = some TxState.ABORTED) := by
  refine ⟨by decide, by decide⟩

/-- C6, at the failing input.  `/commit` for a txid with no record: the claim
(and the spec) prescribe a 4xx reply with no state change.  The code
dereferences the missing record (`rec["op"]` with `rec = None`,
participant.py line 185), raising `TypeError`: no reply of any kind is sent
(the event list is empty, so `replyOf` is `none`), though the state is
indeed unchanged. -/
theorem C6_commit_unknown_txid_raises :
    handleReq (.commit txT) initPState = (initPState, [])
    ∧ replyOf (handleReq (.commit txT) initPState).2 = none := by
  exact ⟨rfl, rfl⟩

/-- C10 counterexample.  `validate_op` is not total over JSON objects: on
`{"type": true}`, `op.get("type", "").upper()` raises `AttributeError`
(embedded as `.error`), and `/prepare` propagates the exception — no vote is
returned (empty event list, state unchanged). -/
theorem C10_counterexample :
    validateOp opBadType = .error ()
    ∧ handleReq (.prepare txT opBadType) initPState = (initPState, [])
    ∧ replyOf (handleReq (.prepare txT opBadType) initPState).2 = none := by
  exact ⟨rfl, rfl, rfl⟩

/-- C10 amended: over operations whose `type` field is absent or is a string
not equal to `"SET"` up to case, `validate_op` returns `False` without
raising, and both `/prepare` and `/can_commit` reply `{vote: NO}`; a missing
`type` field is handled by the `.get` default and behaves exactly like
`type = ""`. -/
theorem C10_validate_no_vote (op : Op) (txid : PStr) (s : PState)
    (h : pyGet op sType = none ∨
         ∃ t, pyGet op sType = some (.jstr t) ∧ pyUpper t ≠ sSET) :
    validateOp op = .ok false
    ∧ replyOf (handleReq (.prepare txid op) s).2 = some (200, .voteR sNO)
    ∧ replyOf (handleReq (.canCommit txid op) s).2 = some (200, .voteR sNO)
    ∧ (pyGet op sType = none →
        validateOp op = validateOp [(sType, JVal.jstr [])]) := by
  have hv : validateOp op = .ok false := by
    rcases h with h | ⟨t, ht, hne⟩
    · simp only [validateOp, h, Option.getD]
      have : pyUpper [] ≠ sSET := by decide
      simp [this]
    · simp only [validateOp, ht, Option.getD]
      simp [hne]
  refine ⟨hv, ?_, ?_, ?_⟩
  · simp [handleReq, hv, replyOf]
  · simp [handleReq, hv, replyOf]
  · intro hn
    rw [hv]
    decide

/-- Witness for C10 at the concrete invalid operation `{"type": "DEL", ...}`. -/
theorem C10_validate_no_vote_witness :
    validateOp opDEL = .ok false
    ∧ replyOf (handleReq (.prepare txT opDEL) initPState).2 = some (200, .voteR sNO)
    ∧ replyOf (handleReq (.canCommit txT opDEL) initPState).2 = some (200, .voteR sNO)
    ∧ (pyGet opDEL sType = none →
        validateOp opDEL = validateOp [(sType, JVal.jstr [])]) :=
  C10_validate_no_vote opDEL txT initPState
    (Or.inr ⟨("DEL").data, by decide, by decide⟩)

/-- A successful `apply_op` is idempotent on the `kv` store: re-applying the
same deterministic `SET` to its own output changes nothing. -/
lemma applyOp_idem (op : Op) (kv kv1 : PStr → Option PStr)
    (h : applyOp op kv = .ok kv1) : applyOp op kv1 = .ok kv1 := by
  cases ht : pyGet op sType with
  | none => simp [applyOp, ht] at h
  | some v =>
      cases v with
      | jstr t =>
          by_cases hset : pyUpper t = sSET
          · cases hk : pyGet op sKey with
            | none => simp [applyOp, ht, hset, hk] at h
            | some kj =>
                cases hv2 : pyGet op sValue with
                | none => simp [applyOp, ht, hset, hk, hv2] at h
                | some vj =>
                    have h1 : Function.update kv (pyStr kj) (some (pyStr vj)) = kv1 := by
                      simpa [applyOp, ht, hset, hk, hv2] using h
                    simp only [applyOp, ht, hset, if_true, hk, hv2]
                    rw [← h1, Function.update_idem]
          · have h1 : kv = kv1 := by simpa [applyOp, ht, hset] using h
            simp [applyOp, ht, hset, h1]
      | jbool b => simp [applyOp, ht] at h
      | jnull => simp [applyOp, ht] at h

/-- C7.  Every participant endpoint is idempotent for a repeated identical
request: invoking it twice yields the same `TX` table and the same `kv`
store as invoking it once (this includes the error paths, which change
nothing each time). -/
theorem C7_endpoints_idempotent (r : Req) (s : PState) :
    (handleReq r (handleReq r s).1).1.tx = (handleReq r s).1.tx
    ∧ (handleReq r (handleReq r s).1).1.kv = (handleReq r s).1.kv := by
  cases r with
  | prepare txid op =>
      cases hval : validateOp op with
      | error e => simp [handleReq, hval]
      | ok b => simp [handleReq, hval, Function.update_idem]
  | canCommit txid op =>
      cases hval : validateOp op with
      | error e => simp [handleReq, hval]
      | ok b => simp [handleReq, hval, Function.update_idem]
  | precommit txid =>
      cases h : s.tx txid with
      | none => simp [handleReq, h]
      | some r0 => simp [handleReq, h, Function.update_same, Function.update_idem]
  | commit txid =>
      cases h : s.tx txid with
      | none => simp [handleReq, h]
      | some r0 =>
          cases hop : r0.op with
          | none => simp [handleReq, h, hop]
          | some op =>
              cases hap : applyOp op s.kv with
              | error e => simp [handleReq, h, hop, hap]
              | ok kv1 =>
                  have h2 : applyOp op kv1 = .ok kv1 := applyOp_idem op s.kv kv1 hap
                  simp [handleReq, h, hop, hap, h2, Function.update_same,
                        Function.update_idem]
  | abort txid =>
      simp [handleReq, Function.update_idem]

/-- C9.  The `kv` store is mutated only by applying a committed `SET`: if any
key changed across a handler invocation, the request was `/commit`, the
transaction record held an operation with `key`/`value` fields, the changed
key is `str(op["key"])` (so at most that single key changes), and its new
value is `str(op["value"])`.  In particular `/prepare`, `/can_commit`,
`/precommit` and `/abort` never change the store. -/
theorem C9_kv_frame (r : Req) (s : PState) (k : PStr)
    (hne : (handleReq r s).1.kv k ≠ s.kv k) :
    ∃ txid r0 op kj vj,
      r = .commit txid ∧ s.tx txid = some r0 ∧ r0.op = some op
      ∧ pyGet op sKey = some kj ∧ pyGet op sValue = some vj
      ∧ k = pyStr kj ∧ (handleReq r s).1.kv k = some (pyStr vj) := by
  cases r with
  | prepare txid op =>
      cases hval : validateOp op with
      | error e => simp [handleReq, hval] at hne
      | ok b => simp [handleReq, hval] at hne
  | canCommit txid op =>
      cases hval : validateOp op with
      | error e => simp [handleReq, hval] at hne
      | ok b => simp [handleReq, hval] at hne
  | precommit txid =>
      cases h : s.tx txid with
      | none => simp [handleReq, h] at hne
      | some r0 => simp [handleReq, h] at hne
  | abort txid => simp [handleReq] at hne
  | commit txid =>
      cases h : s.tx txid with
      | none => simp [handleReq, h] at hne
      | some r0 =>
          cases hop : r0.op with
          | none => simp [handleReq, h, hop] at hne
          | some op =>
              cases hap : applyOp op s.kv with
              | error e => simp [handleReq, h, hop, hap] at hne
              | ok kv1 =>
                  have hkv : (handleReq (.commit txid) s).1.kv = kv1 := by
                    simp [handleReq, h, hop, hap]
                  rw [hkv] at hne ⊢
                  cases ht : pyGet op sType with
                  | none => simp [applyOp, ht] at hap
                  | some v =>
                      cases v with
                      | jstr t =>
                          by_cases hset : pyUpper t = sSET
                          · cases hk : pyGet op sKey with
                            | none => simp [applyOp, ht, hset, hk] at hap
                            | some kj =>
                                cases hv2 : pyGet op sValue with
                                | none => simp [applyOp, ht, hset, hk, hv2] at hap
                                | some vj =>
                                    have hkv1 : kv1 =
                                        Function.update s.kv (pyStr kj) (some (pyStr vj)) := by
                                      have h3 := hap
                                      simp [applyOp, ht, hset, hk, hv2] at h3
                                      exact h3.symm
                                    by_cases hkk : k = pyStr kj
                                    · refine ⟨txid, r0, op, kj, vj, rfl, h, hop, hk, hv2,
                                        hkk, ?_⟩
                                      rw [hkv1, hkk, Function.update_same]
                                    · exact absurd (by
                                        rw [hkv1]
                                        exact Function.update_noteq hkk _ _) hne
                          · have h3 : kv1 = s.kv := by
                              have h4 := hap
                              simp [applyOp, ht, hset] at h4
                              exact h4.symm
                            rw [h3] at hne
                            exact absurd rfl hne
                      | jbool b => simp [applyOp, ht] at hap
                      | jnull => simp [applyOp, ht] at hap

/-- Witness for C9 at a concrete input: committing `{"type": "SET", "key":
"x", "value": "1"}` after a successful prepare changes key `"x"`. -/
theorem C9_kv_frame_witness :
    ∃ txid r0 op kj vj,
      Req.commit txT = .commit txid
      ∧ (runReqs [Req.prepare txT opSET]).tx txid = some r0
      ∧ r0.op = some op
      ∧ pyGet op sKey = some kj ∧ pyGet op sValue = some vj
      ∧ ("x").data = pyStr kj
      ∧ (handleReq (.commit txT) (runReqs [Req.prepare txT opSET])).1.kv (("x").data)
          = some (pyStr vj) :=
  C9_kv_frame (.commit txT) (runReqs [Req.prepare txT opSET]) (("x").data) (by decide)

/-- In the two-event success pattern of a participant handler, the reply is
preceded by the WAL append. -/
lemma reply_after_append (l : PStr) (c0 c : Nat) (b0 b : Reply) (j : Nat)
    (hj : ([Ev.walAppend l, Ev.reply c0 b0])[j]? = some (Ev.reply c b)) :
    ∃ k l2, k < j ∧ ([Ev.walAppend l, Ev.reply c0 b0])[k]? = some (Ev.walAppend l2) := by
  match j with
  | 0 => simp at hj
  | 1 => exact ⟨0, l, by omega, rfl⟩
  | n + 2 => simp at hj

/-- In an event list of the shape `C ++ [walAppend dl] ++ B` where `C` holds
no commit/abort send, every commit/abort send is preceded by the append. -/
lemma walAppend_before_decision_sends (C B : List CEv) (dl : PStr)
    (hC : ∀ e ∈ C, ∀ p ep, e = CEv.sendTo p ep → ep ≠ epCommit ∧ ep ≠ epAbort)
    (j : Nat) (p ep : PStr)
    (hj : (C ++ [CEv.walAppend dl] ++ B)[j]? = some (CEv.sendTo p ep))
    (hep : ep = epCommit ∨ ep = epAbort) :
    ∃ k, k < j ∧ (C ++ [CEv.walAppend dl] ++ B)[k]? = some (CEv.walAppend dl) := by
  have hsh : C ++ [CEv.walAppend dl] ++ B = C ++ CEv.walAppend dl :: B := by simp
  rw [hsh] at hj ⊢
  refine ⟨C.length, ?_, ?_⟩
  · rcases lt_trichotomy j C.length with hlt | heq | hgt
    · rw [List.getElem?_append_left hlt] at hj
      have hmem : CEv.sendTo p ep ∈ C := List.getElem?_mem hj
      rcases hC _ hmem p ep rfl with ⟨h1, h2⟩
      rcases hep with rfl | rfl
      · exact absurd rfl h1
      · exact absurd rfl h2
    · subst heq
      rw [List.getElem?_append_right (le_refl _)] at hj
      simp at hj
    · exact hgt
  · rw [List.getElem?_append_right (le_refl _)]
    simp

/-- C3.  Durability ordering.  (a) Participant: whenever a handler sends a
reply, a WAL append (fsynced inside `wal_append`) occurs earlier in the
invocation's event order, for every endpoint.  (b)/(c) Coordinator: in
`two_pc` and `three_pc`, the `"{txid} DECISION {decision}"` append precedes
every `/commit` or `/abort` dispatch (prepare/can-commit/precommit sends are
not decision dispatches; the retry loop only re-sends decisions already
recorded, hence already appended). -/
theorem C3_wal_before_reply :
    (∀ (r : Req) (s : PState) (j c : Nat) (b : Reply),
        ((handleReq r s).2)[j]? = some (Ev.reply c b) →
        ∃ k l, k < j ∧ ((handleReq r s).2)[k]? = some (Ev.walAppend l))
    ∧ (∀ (txid : PStr) (prs : List (PStr × CallRes)) (j : Nat) (p ep : PStr),
        ((twoPCrun txid prs).events)[j]? = some (CEv.sendTo p ep) →
        (ep = epCommit ∨ ep = epAbort) →
        ∃ k, k < j ∧ ((twoPCrun txid prs).events)[k]?
            = some (CEv.walAppend (decisionLine txid (twoPCrun txid prs).decision)))
    ∧ (∀ (txid : PStr) (prs : List (PStr × CallRes)) (j : Nat) (p ep : PStr),
        ((threePCrun txid prs).events)[j]? = some (CEv.sendTo p ep) →
        (ep = epCommit ∨ ep = epAbort) →
        ∃ k, k < j ∧ ((threePCrun txid prs).events)[k]?
            = some (CEv.walAppend (decisionLine txid (threePCrun txid prs).decision))) := by
  refine ⟨?_, ?_, ?_⟩
  · intro r s j c b hj
    cases r with
    | prepare txid op =>
        cases hval : validateOp op with
        | error e => rw [show (handleReq (.prepare txid op) s).2 = [] by
            simp [handleReq, hval]] at hj; simp at hj
        | ok b2 =>
            rw [show (handleReq (.prepare txid op) s).2
              = [Ev.walAppend (txid ++ spc ++ sPREPARE ++ spc ++ (if b2 then sYES else sNO)
                    ++ spc ++ jsonDumps op),
                 Ev.reply 200 (.voteR (if b2 then sYES else sNO))] by
              simp [handleReq, hval]] at hj ⊢
            exact reply_after_append _ _ _ _ _ _ hj
    | canCommit txid op =>
        cases hval : validateOp op with
        | error e => rw [show (handleReq (.canCommit txid op) s).2 = [] by
            simp [handleReq, hval]] at hj; simp at hj
        | ok b2 =>
            rw [show (handleReq (.canCommit txid op) s).2
              = [Ev.walAppend (txid ++ spc ++ sCAN_COMMIT ++ spc ++ (if b2 then sYES else sNO)
                    ++ spc ++ jsonDumps op),
                 Ev.reply 200 (.voteR (if b2 then sYES else sNO))] by
              simp [handleReq, hval]] at hj ⊢
            exact reply_after_append _ _ _ _ _ _ hj
    | precommit txid =>
        cases h : s.tx txid with
        | none => rw [show (handleReq (.precommit txid) s).2 = [] by
            simp [handleReq, h]] at hj; simp at hj
        | some r0 =>
            rw [show (handleReq (.precommit txid) s).2
              = [Ev.walAppend (txid ++ spc ++ sPRECOMMIT), Ev.reply 200 .okR] by
              simp [handleReq, h]] at hj ⊢
            exact reply_after_append _ _ _ _ _ _ hj
    | commit txid =>
        cases h : s.tx txid with
        | none => rw [show (handleReq (.commit txid) s).2 = [] by
            simp [handleReq, h]] at hj; simp at hj
        | some r0 =>
            cases hop : r0.op with
            | none => rw [show (handleReq (.commit txid) s).2 = [] by
                simp [handleReq, h, hop]] at hj; simp at hj
            | some op =>
                cases hap : applyOp op s.kv with
                | error e => rw [show (handleReq (.commit txid) s).2 = [] by
                    simp [handleReq, h, hop, hap]] at hj; simp at hj
                | ok kv1 =>
                    rw [show (handleReq (.commit txid) s).2
                      = [Ev.walAppend (txid ++ spc ++ sCOMMIT), Ev.reply 200 .okR] by
                      simp [handleReq, h, hop, hap]] at hj ⊢
                    exact reply_after_append _ _ _ _ _ _ hj
    | abort txid =>
        rw [show (handleReq (.abort txid) s).2
          = [Ev.walAppend (txid ++ spc ++ sABORT), Ev.reply 200 .okR] by
          simp [handleReq]] at hj ⊢
        exact reply_after_append _ _ _ _ _ _ hj
  · intro txid prs j p ep hj hep
    have hev : (twoPCrun txid prs).events
        = (prs.map fun pr => CEv.sendTo pr.1 epPrepare)
          ++ [CEv.walAppend (decisionLine txid (twoPCrun txid prs).decision)]
          ++ (prs.map fun pr => CEv.sendTo pr.1
                (if (twoPCrun txid prs).decision = sCOMMIT then epCommit else epAbort)) := rfl
    rw [hev] at hj ⊢
    refine walAppend_before_decision_sends _ _ _ ?_ j p ep hj hep
    intro e he p2 ep2 heq
    rw [List.mem_map] at he
    obtain ⟨pr, _, rfl⟩ := he
    injection heq with h1 h2
    subst h2
    exact ⟨by decide, by decide⟩
  · intro txid prs j p ep hj hep
    have hev : (threePCrun txid prs).events
        = ((prs.map fun pr => CEv.sendTo pr.1 epCanCommit)
            ++ (if (gather prs).2 then prs.map fun pr => CEv.sendTo pr.1 epPrecommitP
                else []))
          ++ [CEv.walAppend (decisionLine txid (threePCrun txid prs).decision)]
          ++ (prs.map fun pr => CEv.sendTo pr.1
                (if (threePCrun txid prs).decision = sCOMMIT then epCommit else epAbort)) := rfl
    rw [hev] at hj ⊢
    refine walAppend_before_decision_sends _ _ _ ?_ j p ep hj hep
    intro e he p2 ep2 heq
    rw [List.mem_append] at he
    rcases he with he | he
    · rw [List.mem_map] at he
      obtain ⟨pr, _, rfl⟩ := he
      injection heq with h1 h2
      subst h2
      exact ⟨by decide, by decide⟩
    · rcases Bool.eq_false_or_eq_true (gather prs).2 with hg | hg
      · rw [hg] at he
        simp only [if_true] at he
        rw [List.mem_map] at he
        obtain ⟨pr, _, rfl⟩ := he
        injection heq with h1 h2
        subst h2
        exact ⟨by decide, by decide⟩
      · rw [hg] at he
        simp at he

/-- Witness for C3 at concrete inputs: the prepare handler's reply at index 1
is preceded by its append; the commit dispatch of a unanimous-`YES` 2PC run
at index 2 is preceded by the `DECISION` append. -/
theorem C3_wal_before_reply_witness :
    (∃ k l, k < 1
      ∧ ((handleReq (.prepare txT opSET) initPState).2)[k]? = some (Ev.walAppend l))
    ∧ (∃ k, k < 2
      ∧ ((twoPCrun txT [(pOne, CallRes.ok (some sYES))]).events)[k]?
          = some (CEv.walAppend
              (decisionLine txT (twoPCrun txT [(pOne, CallRes.ok (some sYES))]).decision))) := by
  have h := C3_wal_before_reply
  constructor
  · exact h.1 (.prepare txT opSET) initPState 1 200 (.voteR sYES) (by decide)
  · exact h.2.1 txT [(pOne, CallRes.ok (some sYES))] 2 pOne epCommit (by decide) (Or.inl rfl)

/-! ### JSON round-trip: `json.loads` recovers what `json.dumps` wrote. -/

lemma parseStringBody_escaped (c : Char) (rest : PStr) (h : c = '"' ∨ c = '\\') :
    parseStringBody ('\\' :: c :: rest)
      = (parseStringBody rest).map (fun p => (c :: p.1, p.2)) := by
  rw [parseStringBody.eq_def]
  dsimp only
  rw [if_pos rfl]
  exact if_pos h

lemma parseStringBody_other (c : Char) (rest : PStr) (h1 : c ≠ '\\') (h2 : c ≠ '"') :
    parseStringBody (c :: rest)
      = (parseStringBody rest).map (fun p => (c :: p.1, p.2)) := by
  rw [parseStringBody.eq_def]
  dsimp only
  rw [if_neg h1, if_neg h2]

lemma parseStringBody_quote (rest : PStr) :
    parseStringBody ('"' :: rest) = some ([], rest) := by
  rw [parseStringBody.eq_def]
  dsimp only
  rw [if_neg (show ¬ ('"' : Char) = '\\' by decide), if_pos rfl]

lemma parseStringBody_esc (s rest : PStr) :
    parseStringBody (escStr s ++ '"' :: rest) = some (s, rest) := by
  induction s with
  | nil =>
      rw [show escStr [] ++ '"' :: rest = '"' :: rest from rfl, parseStringBody_quote]
  | cons c tl ih =>
      by_cases hc : c = '"' ∨ c = '\\'
      · have he : escStr (c :: tl) = '\\' :: c :: escStr tl := by
          simp [escStr, escChar, hc]
        rw [he, List.cons_append, List.cons_append, parseStringBody_escaped c _ hc, ih]
        rfl
      · have he : escStr (c :: tl) = c :: escStr tl := by
          simp [escStr, escChar, hc]
        push_neg at hc
        rw [he, List.cons_append, parseStringBody_other c _ hc.2 hc.1, ih]
        rfl

lemma parseVal_dump (v : JVal) (rest : PStr) :
    parseVal (dumpVal v ++ rest) = some (v, rest) := by
  cases v with
  | jstr s =>
      have h : dumpVal (JVal.jstr s) ++ rest = '"' :: (escStr s ++ '"' :: rest) := by
        simp [dumpVal, dumpStr]
      rw [h]
      simp [parseVal, parseStringBody_esc]
  | jbool b => cases b <;> rfl
  | jnull => rfl

lemma dumpStr_append (k X : PStr) : dumpStr k ++ X = '"' :: (escStr k ++ '"' :: X) := by
  simp [dumpStr]

lemma dumpMembers_single (k : PStr) (v : JVal) :
    dumpMembers [(k, v)] = dumpStr k ++ ((": ").data ++ dumpVal v) := by
  show dumpStr k ++ (": ").data ++ dumpVal v = _
  rw [List.append_assoc]

lemma dumpMembers_cons2 (k : PStr) (v : JVal) (kv2 : PStr × JVal) (tl2 : Op) :
    dumpMembers ((k, v) :: kv2 :: tl2)
      = dumpStr k ++ ((": ").data ++ dumpVal v ++ ((", ").data
          ++ dumpMembers (kv2 :: tl2))) := by
  show dumpStr k ++ (": ").data ++ dumpVal v ++ (", ").data ++ dumpMembers (kv2 :: tl2) = _
  simp [List.append_assoc]

lemma dumpMembers_cons_shape (k : PStr) (v : JVal) (tl : Op) :
    ∃ t, dumpMembers ((k, v) :: tl) = '"' :: t := by
  cases tl with
  | nil => exact ⟨_, (dumpMembers_single k v).trans (dumpStr_append k _)⟩
  | cons kv2 tl2 => exact ⟨_, (dumpMembers_cons2 k v kv2 tl2).trans (dumpStr_append k _)⟩

lemma dumpStr_length (k : PStr) : 2 ≤ (dumpStr k).length := by
  simp only [dumpStr, List.length_cons, List.length_append, List.length_singleton]
  omega

lemma dumpMembers_length (ps : Op) : ps.length ≤ (dumpMembers ps).length := by
  induction ps with
  | nil => simp [dumpMembers]
  | cons kv tl ih =>
      obtain ⟨k, v⟩ := kv
      have h3 := dumpStr_length k
      cases tl with
      | nil =>
          rw [dumpMembers_single]
          simp only [List.length_append, List.length_cons, List.length_nil]
          omega
      | cons kv2 tl2 =>
          rw [dumpMembers_cons2]
          simp only [List.length_append, List.length_cons] at ih ⊢
          omega

lemma parseMembers_dump (ps : Op) : ∀ (fuel : Nat) (rest : PStr), ps ≠ [] →
    ps.length ≤ fuel →
    parseMembers fuel (dumpMembers ps ++ rbrace :: rest) = some (ps, rest) := by
  induction ps with
  | nil => intro fuel rest h; exact absurd rfl h
  | cons kv tl ih =>
      intro fuel rest _ hlen
      obtain ⟨k, v⟩ := kv
      cases fuel with
      | zero => simp at hlen
      | succ f =>
          have hq : ¬ (rbrace = ',') := by decide
          have hq2 : rbrace = rbrace := rfl
          cases tl with
          | nil =>
              have hsh : dumpMembers [(k, v)] ++ rbrace :: rest
                  = '"' :: (escStr k ++ '"' :: (':' :: ' ' :: (dumpVal v ++ rbrace :: rest))) := by
                rw [dumpMembers_single, List.append_assoc, dumpStr_append]
                simp
              rw [hsh]
              simp [parseMembers, parseStringBody_esc, parseVal_dump, hq]
          | cons kv2 tl2 =>
              have hsh : dumpMembers ((k, v) :: kv2 :: tl2) ++ rbrace :: rest
                  = '"' :: (escStr k ++ '"' :: (':' :: ' ' :: (dumpVal v
                      ++ ',' :: ' ' :: (dumpMembers (kv2 :: tl2) ++ rbrace :: rest)))) := by
                rw [dumpMembers_cons2, List.append_assoc, dumpStr_append]
                simp
              rw [hsh]
              have hih := ih f rest (by simp) (by
                simp only [List.length_cons] at hlen ⊢
                omega)
              simp [parseMembers, parseStringBody_esc, parseVal_dump, hih]

lemma jsonLoads_dumps (op : Op) : jsonLoads (jsonDumps op) = some op := by
  cases op with
  | nil => rfl
  | cons kv tl =>
      obtain ⟨k, v⟩ := kv
      obtain ⟨t, ht⟩ := dumpMembers_cons_shape k v tl
      have hlen : ((k, v) :: tl).length ≤ (dumpMembers ((k, v) :: tl) ++ [rbrace]).length := by
        have := dumpMembers_length ((k, v) :: tl)
        simp only [List.length_append]
        omega
      have h1 : parseMembers (dumpMembers ((k, v) :: tl) ++ [rbrace]).length
          (dumpMembers ((k, v) :: tl) ++ [rbrace]) = some ((k, v) :: tl, []) := by
        have := parseMembers_dump ((k, v) :: tl)
          ((dumpMembers ((k, v) :: tl) ++ [rbrace]).length) [] (by simp) hlen
        simpa using this
      have hobj : parseObj (jsonDumps ((k, v) :: tl)) = some ((k, v) :: tl, []) := by
        have hq : ¬ ('"' = rbrace) := by decide
        have hsh : jsonDumps ((k, v) :: tl)
            = lbrace :: (dumpMembers ((k, v) :: tl) ++ [rbrace]) := rfl
        rw [hsh]
        rw [show dumpMembers ((k, v) :: tl) ++ [rbrace] = '"' :: (t ++ [rbrace]) by
          rw [ht]; rfl] at h1 ⊢
        simpa [parseObj, hq] using h1
      simp [jsonLoads, hobj]

/-! ### WAL text layer: Python `split`, `strip`, file lines. -/

lemma splitOnce_not_mem (a : PStr) (h : ' ' ∉ a) : splitOnce ' ' a = none := by
  induction a with
  | nil => rfl
  | cons c tl ih =>
      have hc : ¬ (c = ' ') := fun h0 => h (h0 ▸ List.mem_cons_self c tl)
      have htl : ' ' ∉ tl := fun hm => h (List.mem_cons_of_mem c hm)
      simp [splitOnce, hc, ih htl]

lemma splitOnce_append (a b : PStr) (h : ' ' ∉ a) :
    splitOnce ' ' (a ++ ' ' :: b) = some (a, b) := by
  induction a with
  | nil => simp [splitOnce]
  | cons c tl ih =>
      have hc : ¬ (c = ' ') := fun h0 => h (h0 ▸ List.mem_cons_self c tl)
      have htl : ' ' ∉ tl := fun hm => h (List.mem_cons_of_mem c hm)
      simp [splitOnce, hc, ih htl]

lemma pySplit_step (a b : PStr) (n : Nat) (h : ' ' ∉ a) :
    pySplit (a ++ ' ' :: b) ' ' (n + 1) = a :: pySplit b ' ' n := by
  simp [pySplit, splitOnce_append a b h]

lemma pySplit_last (a : PStr) (n : Nat) (h : ' ' ∉ a) :
    pySplit a ' ' (n + 1) = [a] := by
  simp [pySplit, splitOnce_not_mem a h]

lemma pyRstripNl_eq (l : PStr) (h : '\n' ∉ l) : pyRstripNl l = l := by
  unfold pyRstripNl
  cases hrev : l.reverse with
  | nil =>
      have : l = [] := by simpa using congrArg List.reverse hrev
      subst this; rfl
  | cons d rl =>
      have hdl : d ∈ l := by
        rw [← List.mem_reverse, hrev]; exact List.mem_cons_self d rl
      have hdn : ¬ (d = '\n') := fun h0 => h (h0 ▸ hdl)
      rw [List.dropWhile_cons_of_neg (by simp [hdn]), ← hrev, List.reverse_reverse]

/-- Strip is the identity on a handler line once its trailing newline is
removed: the line starts with a non-space character and ends with one. -/
lemma pyStrip_line (l : PStr) (hne : l ≠ [])
    (hh : ∀ c, l.head? = some c → isPySpace c = false)
    (hl : ∀ c, l.getLast? = some c → isPySpace c = false) :
    pyStrip (l ++ ['\n']) = l := by
  obtain ⟨c, tl, rfl⟩ := List.exists_cons_of_ne_nil hne
  have hc : isPySpace c = false := hh c rfl
  unfold pyStrip
  rw [show (c :: tl) ++ ['\n'] = c :: (tl ++ ['\n']) from rfl]
  rw [List.dropWhile_cons_of_neg (by simp [hc])]
  rw [show c :: (tl ++ ['\n']) = (c :: tl) ++ ['\n'] from rfl]
  rw [List.reverse_append]
  rw [show ([('\n' : Char)]).reverse ++ (c :: tl).reverse
      = '\n' :: (c :: tl).reverse from by simp]
  rw [List.dropWhile_cons_of_pos (by decide)]
  cases hrev : (c :: tl).reverse with
  | nil => simp at hrev
  | cons d rl =>
      have hd : (c :: tl).getLast? = some d := by
        rw [← List.head?_reverse, hrev]; rfl
      rw [List.dropWhile_cons_of_neg (by simp [hl d hd]), ← hrev, List.reverse_reverse]

lemma fileLinesAux_line (l : PStr) : ∀ (acc rest : PStr), '\n' ∉ l →
    fileLinesAux acc (l ++ '\n' :: rest)
      = ((acc.reverse ++ l) ++ ['\n']) :: fileLinesAux [] rest := by
  induction l with
  | nil => intro acc rest _; simp [fileLinesAux]
  | cons c tl ih =>
      intro acc rest hnl
      have hc : ¬ (c = '\n') := fun h0 => hnl (h0 ▸ List.mem_cons_self c tl)
      have htl : '\n' ∉ tl := fun hm => hnl (List.mem_cons_of_mem c hm)
      rw [List.cons_append]
      rw [show fileLinesAux acc (c :: (tl ++ '\n' :: rest))
          = fileLinesAux (c :: acc) (tl ++ '\n' :: rest) from by simp [fileLinesAux, hc]]
      rw [ih (c :: acc) rest htl]
      simp [List.append_assoc]

lemma fileLinesAux_complete (w : PStr) : ∀ (acc rest : PStr), w.getLast? = some '\n' →
    fileLinesAux acc (w ++ rest) = fileLinesAux acc w ++ fileLinesAux [] rest := by
  induction w with
  | nil => intro acc rest h; simp at h
  | cons c w' ih =>
      intro acc rest h
      by_cases hc : c = '\n'
      · subst hc
        rw [List.cons_append]
        rw [show fileLinesAux acc ('\n' :: (w' ++ rest))
            = (acc.reverse ++ ['\n']) :: fileLinesAux [] (w' ++ rest) from by
          simp [fileLinesAux]]
        rw [show fileLinesAux acc ('\n' :: w')
            = (acc.reverse ++ ['\n']) :: fileLinesAux [] w' from by simp [fileLinesAux]]
        cases w' with
        | nil => simp [fileLinesAux]
        | cons d w2 =>
            have h2 : (d :: w2).getLast? = some '\n' := by
              rw [← List.getLast?_cons_cons]; exact h
            rw [ih [] rest h2, List.cons_append]
      · have hw' : w' ≠ [] := by
          intro h0
          subst h0
          simp at h
          exact hc h
        have h2 : w'.getLast? = some '\n' := by
          obtain ⟨d, w2, rfl⟩ := List.exists_cons_of_ne_nil hw'
          rw [← List.getLast?_cons_cons]; exact h
        rw [List.cons_append]
        rw [show fileLinesAux acc (c :: (w' ++ rest))
            = fileLinesAux (c :: acc) (w' ++ rest) from by simp [fileLinesAux, hc]]
        rw [show fileLinesAux acc (c :: w')
            = fileLinesAux (c :: acc) w' from by simp [fileLinesAux, hc]]
        exact ih (c :: acc) rest h2

lemma fileLines_append_line (w l : PStr) (hw : w = [] ∨ w.getLast? = some '\n')
    (hnl : '\n' ∉ l) :
    fileLines (w ++ (l ++ ['\n'])) = fileLines w ++ [l ++ ['\n']] := by
  rcases hw with rfl | hw
  · rw [List.nil_append]
    unfold fileLines
    rw [show l ++ ['\n'] = l ++ '\n' :: ([] : PStr) from rfl, fileLinesAux_line l [] [] hnl]
    simp [fileLinesAux]
  · unfold fileLines
    rw [fileLinesAux_complete w [] (l ++ ['\n']) hw]
    rw [show l ++ ['\n'] = l ++ '\n' :: ([] : PStr) from rfl, fileLinesAux_line l [] [] hnl]
    simp [fileLinesAux]

lemma walAppendStr_getLast (w l : PStr) :
    (walAppendStr w l).getLast? = some '\n' := by
  unfold walAppendStr
  rw [List.append_assoc, List.getLast?_append_of_ne_nil _ (by simp)]
  simp

/-- Replaying an appended newline-free line is one `replayLine` step after
replaying the old file. -/
lemma walReplay_append (w line : PStr) (hfo : w = [] ∨ w.getLast? = some '\n')
    (hnl : '\n' ∉ line) (t : RState) (hw : walReplay w = .ok t) :
    walReplay (walAppendStr w line) = replayLine t (line ++ ['\n']) := by
  unfold walReplay walAppendStr
  rw [pyRstripNl_eq line hnl]
  rw [List.append_assoc]
  rw [fileLines_append_line w line hfo hnl]
  rw [List.foldlM_append]
  rw [show (fileLines w).foldlM replayLine ⟨fun _ => none, fun _ => none⟩
      = walReplay w from rfl, hw]
  show (replayLine t (line ++ ['\n'])).bind (fun t1 => pure t1) = _
  cases replayLine t (line ++ ['\n']) <;> rfl

/-! ### Control-free operations dump to newline-free JSON. -/

lemma escStr_ge (s : PStr) (h : strPySafe s = true) :
    ∀ c ∈ escStr s, 32 ≤ c.toNat := by
  intro c hc
  unfold escStr at hc
  rw [List.mem_flatten] at hc
  obtain ⟨l, hl, hcl⟩ := hc
  rw [List.mem_map] at hl
  obtain ⟨c2, hc2, rfl⟩ := hl
  have h2 : 32 ≤ c2.toNat :=
    of_decide_eq_true (List.all_eq_true.mp h c2 hc2)
  unfold escChar at hcl
  by_cases hcc : c2 = '"' ∨ c2 = '\\'
  · rw [if_pos hcc, List.mem_cons] at hcl
    rcases hcl with rfl | hcl
    · decide
    · rw [List.mem_singleton] at hcl
      exact hcl ▸ h2
  · rw [if_neg hcc, List.mem_singleton] at hcl
    exact hcl ▸ h2

lemma dumpStr_ge (s : PStr) (h : strPySafe s = true) :
    ∀ c ∈ dumpStr s, 32 ≤ c.toNat := by
  intro c hc
  unfold dumpStr at hc
  rw [List.mem_cons] at hc
  rcases hc with rfl | hc
  · decide
  · rw [List.mem_append, List.mem_singleton] at hc
    rcases hc with hc | rfl
    · exact escStr_ge s h c hc
    · decide

lemma dumpVal_ge (v : JVal) (h : valPySafe v = true) :
    ∀ c ∈ dumpVal v, 32 ≤ c.toNat := by
  intro c hc
  cases v with
  | jstr s => exact dumpStr_ge s h c hc
  | jbool b =>
      cases b with
      | true =>
          have hall : ∀ x ∈ dumpVal (JVal.jbool true), 32 ≤ x.toNat := by decide
          exact hall c hc
      | false =>
          have hall : ∀ x ∈ dumpVal (JVal.jbool false), 32 ≤ x.toNat := by decide
          exact hall c hc
  | jnull =>
      have hall : ∀ x ∈ dumpVal JVal.jnull, 32 ≤ x.toNat := by decide
      exact hall c hc

lemma colon_space_ge : ∀ x ∈ ((": ").data : PStr), 32 ≤ x.toNat := by decide

lemma comma_space_ge : ∀ x ∈ ((", ").data : PStr), 32 ≤ x.toNat := by decide

lemma dumpMembers_ge (op : Op) (h : opPySafe op = true) :
    ∀ c ∈ dumpMembers op, 32 ≤ c.toNat := by
  induction op with
  | nil => intro c hc; simp [dumpMembers] at hc
  | cons kv tl ih =>
      obtain ⟨k, v⟩ := kv
      have hkv := List.all_eq_true.mp h (k, v) (List.mem_cons_self _ _)
      rw [Bool.and_eq_true] at hkv
      have htl : opPySafe tl = true := by
        refine List.all_eq_true.mpr (fun kv2 hkv2 => ?_)
        exact List.all_eq_true.mp h kv2 (List.mem_cons_of_mem _ hkv2)
      intro c hc
      cases tl with
      | nil =>
          rw [dumpMembers_single, List.mem_append, List.mem_append] at hc
          rcases hc with hc | hc | hc
          · exact dumpStr_ge k hkv.1 c hc
          · exact colon_space_ge c hc
          · exact dumpVal_ge v hkv.2 c hc
      | cons kv2 tl2 =>
          rw [dumpMembers_cons2] at hc
          simp only [List.mem_append] at hc
          rcases hc with hc | hc
          · exact dumpStr_ge k hkv.1 c hc
          · rcases hc with hc | hc
            · rcases hc with hc | hc
              · exact colon_space_ge c hc
              · exact dumpVal_ge v hkv.2 c hc
            · rcases hc with hc | hc
              · exact comma_space_ge c hc
              · exact ih htl c hc

lemma jsonDumps_ge (op : Op) (h : opPySafe op = true) :
    ∀ c ∈ jsonDumps op, 32 ≤ c.toNat := by
  intro c hc
  unfold jsonDumps at hc
  rw [List.mem_cons] at hc
  rcases hc with rfl | hc
  · decide
  · rw [List.mem_append, List.mem_singleton] at hc
    rcases hc with hc | rfl
    · exact dumpMembers_ge op h c hc
    · decide

lemma jsonDumps_no_nl (op : Op) (h : opPySafe op = true) : '\n' ∉ jsonDumps op := by
  intro hc
  have h2 := jsonDumps_ge op h '\n' hc
  revert h2
  decide

lemma txidSafe_spec (t : PStr) (h : txidSafeB t = true) :
    t ≠ [] ∧ (∀ c ∈ t, isPySpace c = false) ∧ ' ' ∉ t ∧ '\n' ∉ t := by
  rw [txidSafeB, Bool.and_eq_true] at h
  obtain ⟨h1, h2⟩ := h
  have hne : t ≠ [] := of_decide_eq_true h1
  have hall : ∀ c ∈ t, isPySpace c = false := by
    intro c hc
    have := List.all_eq_true.mp h2 c hc
    rwa [Bool.not_eq_true'] at this
  refine ⟨hne, hall, ?_, ?_⟩
  · intro hm
    have := hall ' ' hm
    revert this; decide
  · intro hm
    have := hall '\n' hm
    revert this; decide

/-! ### Replay of each handler-written line. -/

/-- Replay of a `PREPARE`/`CAN_COMMIT` line: the vote and the operation come
back from the text, the record state is `READY` iff the vote was `YES`; the
op json is the remainder of the line after the third space, so internal
whitespace in the JSON round-trips. -/
lemma replayLine_vote (t : RState) (txid cmd v : PStr) (op : Op)
    (htx : txidSafeB txid = true)
    (hcmd : cmd = sPREPARE ∨ cmd = sCAN_COMMIT)
    (hv : v = sYES ∨ v = sNO) :
    replayLine t ((txid ++ spc ++ cmd ++ spc ++ v ++ spc ++ jsonDumps op) ++ ['\n'])
      = .ok ⟨Function.update t.tx txid
               (some ⟨if v = sYES then .READY else .ABORTED, some op⟩), t.kv⟩ := by
  obtain ⟨hne, hall, hsp, hnl⟩ := txidSafe_spec txid htx
  have hline : txid ++ spc ++ cmd ++ spc ++ v ++ spc ++ jsonDumps op
      = txid ++ ' ' :: (cmd ++ ' ' :: (v ++ ' ' :: jsonDumps op)) := by
    simp [spc, List.append_assoc]
  have hjne : jsonDumps op ≠ [] := by unfold jsonDumps; simp
  have hjlast : (jsonDumps op).getLast? = some rbrace := by
    rw [show jsonDumps op = (lbrace :: dumpMembers op) ++ [rbrace] from by
      unfold jsonDumps; simp]
    rw [List.getLast?_append_of_ne_nil _ (by simp)]
    rfl
  have hstrip : pyStrip ((txid ++ spc ++ cmd ++ spc ++ v ++ spc ++ jsonDumps op) ++ ['\n'])
      = txid ++ ' ' :: (cmd ++ ' ' :: (v ++ ' ' :: jsonDumps op)) := by
    rw [hline]
    refine pyStrip_line _ (by simp [hne]) ?_ ?_
    · intro c hc
      rw [List.head?_append_of_ne_nil _ hne] at hc
      exact hall c (List.mem_of_mem_head? hc)
    · intro c hc
      rw [show txid ++ ' ' :: (cmd ++ ' ' :: (v ++ ' ' :: jsonDumps op))
          = (txid ++ ' ' :: cmd ++ ' ' :: v ++ [' ']) ++ jsonDumps op from by
        simp [List.append_assoc]] at hc
      rw [List.getLast?_append_of_ne_nil _ hjne, hjlast] at hc
      rw [Option.some.injEq] at hc
      subst hc
      decide
  have hcsp : ' ' ∉ cmd := by
    rcases hcmd with rfl | rfl <;> decide
  have hvsp : ' ' ∉ v := by
    rcases hv with rfl | rfl <;> decide
  have hsplit : pySplit (txid ++ ' ' :: (cmd ++ ' ' :: (v ++ ' ' :: jsonDumps op))) ' ' 2
      = [txid, cmd, v ++ ' ' :: jsonDumps op] := by
    rw [pySplit_step _ _ _ hsp, pySplit_step _ _ _ hcsp]
    rfl
  have hsplit2 : pySplit (v ++ ' ' :: jsonDumps op) ' ' 1 = [v, jsonDumps op] := by
    rw [pySplit_step _ _ _ hvsp]
    rfl
  unfold replayLine
  rw [hstrip, hsplit]
  dsimp only
  rw [if_pos hcmd, hsplit2]
  dsimp only
  rw [jsonLoads_dumps]

/-- The parts of a bare line (`PRECOMMIT`/`COMMIT`/`ABORT`). -/
lemma pyStrip_split_bare (txid cmd : PStr)
    (htx : txidSafeB txid = true)
    (hcne : cmd ≠ []) (hcsp : ' ' ∉ cmd)
    (hclast : ∀ c, cmd.getLast? = some c → isPySpace c = false) :
    pySplit (pyStrip ((txid ++ spc ++ cmd) ++ ['\n'])) ' ' 2 = [txid, cmd] := by
  obtain ⟨hne, hall, hsp, hnl⟩ := txidSafe_spec txid htx
  have hline : txid ++ spc ++ cmd = txid ++ ' ' :: cmd := by
    simp [spc, List.append_assoc]
  have hstrip : pyStrip ((txid ++ ' ' :: cmd) ++ ['\n']) = txid ++ ' ' :: cmd := by
    refine pyStrip_line _ (by simp [hne]) ?_ ?_
    · intro c hc
      rw [List.head?_append_of_ne_nil _ hne] at hc
      exact hall c (List.mem_of_mem_head? hc)
    · intro c hc
      rw [show txid ++ ' ' :: cmd = (txid ++ [' ']) ++ cmd from by
        simp [List.append_assoc]] at hc
      rw [List.getLast?_append_of_ne_nil _ hcne] at hc
      exact hclast c hc
  rw [hline, hstrip]
  rw [pySplit_step _ _ _ hsp, pySplit_last _ _ hcsp]

lemma replayLine_precommit (t : RState) (txid : PStr) (r : PRec)
    (htx : txidSafeB txid = true) (h : t.tx txid = some r) :
    replayLine t ((txid ++ spc ++ sPRECOMMIT) ++ ['\n'])
      = .ok ⟨Function.update t.tx txid (some ⟨.PRECOMMIT, r.op⟩), t.kv⟩ := by
  have hparts := pyStrip_split_bare txid sPRECOMMIT htx (by decide) (by decide)
    (by decide)
  unfold replayLine
  rw [hparts]
  dsimp only
  rw [if_neg (show ¬ (sPRECOMMIT = sPREPARE ∨ sPRECOMMIT = sCAN_COMMIT) by decide),
      if_pos rfl, h]

lemma replayLine_commitRec (t : RState) (txid : PStr) (r : PRec) (op : Op)
    (kv1 : PStr → Option PStr)
    (htx : txidSafeB txid = true) (h : t.tx txid = some r) (hop : r.op = some op)
    (hap : applyOp op t.kv = .ok kv1) :
    replayLine t ((txid ++ spc ++ sCOMMIT) ++ ['\n'])
      = .ok ⟨Function.update t.tx txid (some ⟨.COMMITTED, some op⟩), kv1⟩ := by
  have hparts := pyStrip_split_bare txid sCOMMIT htx (by decide) (by decide)
    (by decide)
  unfold replayLine
  rw [hparts]
  dsimp only
  rw [if_neg (show ¬ (sCOMMIT = sPREPARE ∨ sCOMMIT = sCAN_COMMIT) by decide),
      if_neg (show ¬ (sCOMMIT = sPRECOMMIT) by decide),
      if_pos rfl, h]
  dsimp only
  rw [hop]
  dsimp only
  rw [hap]

lemma replayLine_abortRec (t : RState) (txid : PStr)
    (htx : txidSafeB txid = true) :
    replayLine t ((txid ++ spc ++ sABORT) ++ ['\n'])
      = .ok ⟨Function.update t.tx txid (some ⟨.ABORTED, none⟩), t.kv⟩ := by
  have hparts := pyStrip_split_bare txid sABORT htx (by decide) (by decide)
    (by decide)
  unfold replayLine
  rw [hparts]
  dsimp only
  rw [if_neg (show ¬ (sABORT = sPREPARE ∨ sABORT = sCAN_COMMIT) by decide),
      if_neg (show ¬ (sABORT = sPRECOMMIT) by decide),
      if_neg (show ¬ (sABORT = sCOMMIT) by decide),
      if_pos rfl]

lemma vote_line_no_nl (txid cmd v : PStr) (op : Op)
    (htx : txidSafeB txid = true)
    (hcmd : cmd = sPREPARE ∨ cmd = sCAN_COMMIT)
    (hv : v = sYES ∨ v = sNO)
    (hop : opPySafe op = true) :
    '\n' ∉ txid ++ spc ++ cmd ++ spc ++ v ++ spc ++ jsonDumps op := by
  obtain ⟨_, _, _, hnl⟩ := txidSafe_spec txid htx
  intro hm
  simp only [List.mem_append] at hm
  rcases hm with ((((( hm | hm) | hm) | hm) | hm) | hm) | hm
  · exact hnl hm
  · exact absurd hm (by decide)
  · rcases hcmd with rfl | rfl <;> exact absurd hm (by decide)
  · exact absurd hm (by decide)
  · rcases hv with rfl | rfl <;> exact absurd hm (by decide)
  · exact absurd hm (by decide)
  · exact jsonDumps_no_nl op hop hm

lemma bare_line_no_nl (txid cmd : PStr)
    (htx : txidSafeB txid = true) (hcnl : '\n' ∉ cmd) :
    '\n' ∉ txid ++ spc ++ cmd := by
  obtain ⟨_, _, _, hnl⟩ := txidSafe_spec txid htx
  intro hm
  simp only [List.mem_append] at hm
  rcases hm with (hm | hm) | hm
  · exact hnl hm
  · exact absurd hm (by decide)
  · exact hcnl hm

/-- One handler invocation preserves the replay invariant: the WAL file stays
newline-terminated, and replaying it still rebuilds exactly the live `TX`
and `kv`. -/
lemma walInv_preserved (r : Req) (s : PState)
    (hr : reqSafeB r = true) (hcv : ccValidB r = true)
    (hfo : s.wal = [] ∨ s.wal.getLast? = some '\n')
    (hrep : walReplay s.wal = .ok ⟨s.tx, s.kv⟩) :
    ((handleReq r s).1.wal = [] ∨ ((handleReq r s).1.wal).getLast? = some '\n')
    ∧ walReplay ((handleReq r s).1.wal)
        = .ok ⟨(handleReq r s).1.tx, (handleReq r s).1.kv⟩ := by
  cases r with
  | prepare txid op =>
      have hr2 := hr
      unfold reqSafeB reqTxid at hr2
      rw [Bool.and_eq_true] at hr2
      obtain ⟨htx, hop⟩ := hr2
      cases hval : validateOp op with
      | error e =>
          simp only [handleReq, hval]
          exact ⟨hfo, hrep⟩
      | ok b =>
          have hvor : (if b then sYES else sNO) = sYES ∨ (if b then sYES else sNO) = sNO := by
            cases b
            · exact Or.inr rfl
            · exact Or.inl rfl
          have hnl : '\n' ∉ txid ++ spc ++ sPREPARE ++ spc ++ (if b then sYES else sNO)
              ++ spc ++ jsonDumps op :=
            vote_line_no_nl txid sPREPARE _ op htx (Or.inl rfl) hvor hop
          have h1 : (handleReq (.prepare txid op) s).1
              = { s with tx := Function.update s.tx txid
                           (some ⟨if b then .READY else .ABORTED, some op⟩),
                         wal := walAppendStr s.wal
                           (txid ++ spc ++ sPREPARE ++ spc ++ (if b then sYES else sNO)
                             ++ spc ++ jsonDumps op) } := by
            simp [handleReq, hval]
          rw [h1]
          refine ⟨Or.inr (walAppendStr_getLast _ _), ?_⟩
          rw [walReplay_append s.wal _ hfo hnl ⟨s.tx, s.kv⟩ hrep]
          rw [replayLine_vote ⟨s.tx, s.kv⟩ txid sPREPARE _ op htx (Or.inl rfl) hvor]
          cases b
          · have hno : ¬ (sNO = sYES) := by decide
            simp [hno]
          · simp
  | canCommit txid op =>
      have hr2 := hr
      unfold reqSafeB reqTxid at hr2
      rw [Bool.and_eq_true] at hr2
      obtain ⟨htx, hop⟩ := hr2
      have hb : validateOp op = .ok true := by
        unfold ccValidB at hcv
        exact of_decide_eq_true hcv
      have hnl : '\n' ∉ txid ++ spc ++ sCAN_COMMIT ++ spc ++ sYES ++ spc ++ jsonDumps op :=
        vote_line_no_nl txid sCAN_COMMIT sYES op htx (Or.inr rfl) (Or.inl rfl) hop
      have h1 : (handleReq (.canCommit txid op) s).1
          = { s with tx := Function.update s.tx txid (some ⟨.READY, some op⟩),
                     wal := walAppendStr s.wal
                       (txid ++ spc ++ sCAN_COMMIT ++ spc ++ sYES ++ spc ++ jsonDumps op) } := by
        simp [handleReq, hb]
      rw [h1]
      refine ⟨Or.inr (walAppendStr_getLast _ _), ?_⟩
      rw [walReplay_append s.wal _ hfo hnl ⟨s.tx, s.kv⟩ hrep]
      rw [replayLine_vote ⟨s.tx, s.kv⟩ txid sCAN_COMMIT sYES op htx (Or.inr rfl) (Or.inl rfl)]
      simp
  | precommit txid =>
      have hr2 := hr
      unfold reqSafeB reqTxid at hr2
      rw [Bool.and_eq_true] at hr2
      obtain ⟨htx, _⟩ := hr2
      cases h : s.tx txid with
      | none =>
          simp only [handleReq, h]
          exact ⟨hfo, hrep⟩
      | some r0 =>
          have hnl : '\n' ∉ txid ++ spc ++ sPRECOMMIT :=
            bare_line_no_nl txid sPRECOMMIT htx (by decide)
          have h1 : (handleReq (.precommit txid) s).1
              = { s with tx := Function.update s.tx txid (some ⟨.PRECOMMIT, r0.op⟩),
                         wal := walAppendStr s.wal (txid ++ spc ++ sPRECOMMIT) } := by
            simp [handleReq, h]
          rw [h1]
          refine ⟨Or.inr (walAppendStr_getLast _ _), ?_⟩
          rw [walReplay_append s.wal _ hfo hnl ⟨s.tx, s.kv⟩ hrep]
          rw [replayLine_precommit ⟨s.tx, s.kv⟩ txid r0 htx h]
  | commit txid =>
      have hr2 := hr
      unfold reqSafeB reqTxid at hr2
      rw [Bool.and_eq_true] at hr2
      obtain ⟨htx, _⟩ := hr2
      cases h : s.tx txid with
      | none =>
          simp only [handleReq, h]
          exact ⟨hfo, hrep⟩
      | some r0 =>
          cases hop : r0.op with
          | none =>
              simp only [handleReq, h, hop]
              exact ⟨hfo, hrep⟩
          | some op =>
              cases hap : applyOp op s.kv with
              | error e =>
                  simp only [handleReq, h, hop, hap]
                  exact ⟨hfo, hrep⟩
              | ok kv1 =>
                  have hnl : '\n' ∉ txid ++ spc ++ sCOMMIT :=
                    bare_line_no_nl txid sCOMMIT htx (by decide)
                  have h1 : (handleReq (.commit txid) s).1
                      = { s with tx := Function.update s.tx txid
                                   (some ⟨.COMMITTED, some op⟩),
                                 kv := kv1,
                                 wal := walAppendStr s.wal (txid ++ spc ++ sCOMMIT) } := by
                    simp [handleReq, h, hop, hap]
                  rw [h1]
                  refine ⟨Or.inr (walAppendStr_getLast _ _), ?_⟩
                  rw [walReplay_append s.wal _ hfo hnl ⟨s.tx, s.kv⟩ hrep]
                  rw [replayLine_commitRec ⟨s.tx, s.kv⟩ txid r0 op kv1 htx h hop hap]
  | abort txid =>
      have hr2 := hr
      unfold reqSafeB reqTxid at hr2
      rw [Bool.and_eq_true] at hr2
      obtain ⟨htx, _⟩ := hr2
      have hnl : '\n' ∉ txid ++ spc ++ sABORT :=
        bare_line_no_nl txid sABORT htx (by decide)
      have h1 : (handleReq (.abort txid) s).1
          = { s with tx := Function.update s.tx txid (some ⟨.ABORTED, none⟩),
                     wal := walAppendStr s.wal (txid ++ spc ++ sABORT) } := by
        simp [handleReq]
      rw [h1]
      refine ⟨Or.inr (walAppendStr_getLast _ _), ?_⟩
      rw [walReplay_append s.wal _ hfo hnl ⟨s.tx, s.kv⟩ hrep]
      rw [replayLine_abortRec ⟨s.tx, s.kv⟩ txid htx]

lemma walInv_run (rs : List Req) : ∀ (s : PState),
    (∀ r ∈ rs, reqSafeB r = true) → (∀ r ∈ rs, ccValidB r = true) →
    (s.wal = [] ∨ s.wal.getLast? = some '\n') →
    walReplay s.wal = .ok ⟨s.tx, s.kv⟩ →
    walReplay ((rs.foldl (fun s r => (handleReq r s).1) s).wal)
      = .ok ⟨(rs.foldl (fun s r => (handleReq r s).1) s).tx,
             (rs.foldl (fun s r => (handleReq r s).1) s).kv⟩ := by
  induction rs with
  | nil => intro s _ _ _ hrep; exact hrep
  | cons r tl ih =>
      intro s hsafe hcc hfo hrep
      have hstep := walInv_preserved r s (hsafe r (List.mem_cons_self _ _))
        (hcc r (List.mem_cons_self _ _)) hfo hrep
      exact ih ((handleReq r s).1)
        (fun r2 h2 => hsafe r2 (List.mem_cons_of_mem _ h2))
        (fun r2 h2 => hcc r2 (List.mem_cons_of_mem _ h2))
        hstep.1 hstep.2

/-- C8 amended.  For every crash-free sequence of endpoint calls whose tokens
are well formed (non-empty whitespace-free txids, control-free operation
strings — the conditions §3/§4.3 of the spec place on WAL tokens) and in
which every `can_commit` carries a valid operation (vote `YES`), replaying
the produced WAL in append order rebuilds exactly the live `TX` table (up to
the wall-clock `ts` field, which is not part of the embedded record) and the
live `kv` store; each `COMMIT` record re-applies its operation, and the
op-json of a vote record is recovered as the remainder of the line after the
third space, so JSON with internal whitespace round-trips.  The `can_commit`
restriction is forced by the counterexample: a `CAN_COMMIT NO` record
replays to `ABORTED` while the handler left `READY`. -/
theorem C8_recovery_equiv (rs : List Req)
    (hsafe : ∀ r ∈ rs, reqSafeB r = true)
    (hcc : ∀ r ∈ rs, ccValidB r = true) :
    walReplay (runReqs rs).wal = .ok ⟨(runReqs rs).tx, (runReqs rs).kv⟩ :=
  walInv_run rs initPState hsafe hcc (Or.inl rfl) rfl

/-- Witness for C8 at a concrete trace: prepare, precommit, commit of a
`SET`; replay rebuilds the `COMMITTED` record and the `kv` entry. -/
theorem C8_recovery_equiv_witness :
    walReplay (runReqs [Req.prepare txT opSET, Req.precommit txT, Req.commit txT]).wal
      = .ok ⟨(runReqs [Req.prepare txT opSET, Req.precommit txT, Req.commit txT]).tx,
             (runReqs [Req.prepare txT opSET, Req.precommit txT, Req.commit txT]).kv⟩ :=
  C8_recovery_equiv [Req.prepare txT opSET, Req.precommit txT, Req.commit txT]
    (by decide) (by decide)

/-- C8 counterexample.  The claim as stated fails: after the single call
`can_commit(t1, {"type": "DEL", ...})` the in-memory record is `READY`, but
replaying the WAL written by that same call rebuilds it as `ABORTED`. -/
theorem C8_counterexample :
    replayTxOf (runReqs [Req.canCommit txT opDEL]).wal txT = some TxState.ABORTED
    ∧ ((runReqs [Req.canCommit txT opDEL]).tx txT).map PRec.state = some TxState.READY
    ∧ (some TxState.ABORTED ≠ some TxState.READY) := by
  refine ⟨by decide, by decide, by decide⟩

/-! ### Agreement: handler effects on one transaction's state. -/

lemma sysDecision_cases {n : Nat} (v : Fin n → Option PStr) :
    sysDecision v = sCOMMIT ∨ sysDecision v = sABORT := by
  unfold sysDecision
  split
  · exact Or.inl rfl
  · exact Or.inr rfl

lemma sysDecision_commit_iff {n : Nat} (v : Fin n → Option PStr) :
    sysDecision v = sCOMMIT ↔ ∀ j, v j = some sYES := by
  unfold sysDecision
  split
  · next h => simp [h]
  · next h =>
      have : ¬ (sABORT = sCOMMIT) := by decide
      simp [this, h]

lemma vote_handler_no_commit (pr : Proto) (txid : PStr) (op : Op) (p : PState)
    (h : stateAt txid ((handleReq (voteReq pr txid op) p).1) = some TxState.COMMITTED) :
    stateAt txid p = some TxState.COMMITTED := by
  cases pr with
  | p2 =>
      cases hval : validateOp op with
      | error e => simpa [voteReq, handleReq, hval] using h
      | ok b =>
          have hx : (handleReq (voteReq .p2 txid op) p).1
              = { p with
                  tx := Function.update p.tx txid
                          (some ⟨if b then .READY else .ABORTED, some op⟩),
                  wal := walAppendStr p.wal
                           (txid ++ spc ++ sPREPARE ++ spc
                             ++ (if b then sYES else sNO) ++ spc ++ jsonDumps op) } := by
            simp [voteReq, handleReq, hval]
          rw [hx] at h
          simp only [stateAt, Function.update_same] at h
          cases b <;> simp at h
  | p3 =>
      cases hval : validateOp op with
      | error e => simpa [voteReq, handleReq, hval] using h
      | ok b =>
          have hx : (handleReq (voteReq .p3 txid op) p).1
              = { p with
                  tx := Function.update p.tx txid (some ⟨.READY, some op⟩),
                  wal := walAppendStr p.wal
                           (txid ++ spc ++ sCAN_COMMIT ++ spc
                             ++ (if b then sYES else sNO) ++ spc ++ jsonDumps op) } := by
            simp [voteReq, handleReq, hval]
          rw [hx] at h
          simp [stateAt, Function.update_same] at h

lemma precommit_handler_states (txid : PStr) (p : PState) :
    stateAt txid ((handleReq (.precommit txid) p).1) = some TxState.PRECOMMIT
    ∨ (handleReq (.precommit txid) p).1 = p := by
  cases h : p.tx txid with
  | none => right; simp [handleReq, h]
  | some r0 => left; simp [handleReq, h, stateAt, Function.update_same]

lemma commit_handler_states (txid : PStr) (p : PState) :
    stateAt txid ((handleReq (.commit txid) p).1) = some TxState.COMMITTED
    ∨ (handleReq (.commit txid) p).1 = p := by
  cases h : p.tx txid with
  | none => right; simp [handleReq, h]
  | some r0 =>
      cases hop : r0.op with
      | none => right; simp [handleReq, h, hop]
      | some op =>
          cases hap : applyOp op p.kv with
          | error e => right; simp [handleReq, h, hop, hap]
          | ok kv1 => left; simp [handleReq, h, hop, hap, stateAt, Function.update_same]

lemma abort_handler_state (txid : PStr) (p : PState) :
    stateAt txid ((handleReq (.abort txid) p).1) = some TxState.ABORTED := by
  simp [handleReq, stateAt, Function.update_same]

/-- A vote call that produced a reply: the replied vote is `YES` or `NO`, the
resulting record is not `COMMITTED`, and it is `ABORTED` only on a `NO`
reply. -/
lemma voteRecv_analysis (pr : Proto) (txid : PStr) (op : Op) (p p1 : PState)
    (evs : List Ev) (v : PStr)
    (hrun : handleReq (voteReq pr txid op) p = (p1, evs))
    (hrep : replyOf evs = some (200, .voteR v)) :
    (v = sYES ∨ v = sNO)
    ∧ stateAt txid p1 ≠ some TxState.COMMITTED
    ∧ (stateAt txid p1 = some TxState.ABORTED → v = sNO) := by
  cases pr with
  | p2 =>
      cases hval : validateOp op with
      | error e =>
          rw [show handleReq (voteReq .p2 txid op) p = (p, []) from by
            simp [voteReq, handleReq, hval]] at hrun
          injection hrun with h1 h2
          rw [← h2] at hrep
          simp [replyOf] at hrep
      | ok b =>
          have hx : handleReq (voteReq .p2 txid op) p
              = ({ p with
                   tx := Function.update p.tx txid
                           (some ⟨if b then .READY else .ABORTED, some op⟩),
                   wal := walAppendStr p.wal
                            (txid ++ spc ++ sPREPARE ++ spc
                              ++ (if b then sYES else sNO) ++ spc ++ jsonDumps op) },
                 [Ev.walAppend (txid ++ spc ++ sPREPARE ++ spc
                     ++ (if b then sYES else sNO) ++ spc ++ jsonDumps op),
                  Ev.reply 200 (.voteR (if b then sYES else sNO))]) := by
            simp [voteReq, handleReq, hval]
          rw [hx] at hrun
          injection hrun with h1 h2
          rw [← h2] at hrep
          simp only [replyOf, List.findSome?] at hrep
          have hv : (if b then sYES else sNO) = v := by simpa using hrep
          subst h1
          refine ⟨?_, ?_, ?_⟩
          · rw [← hv]; cases b
            · exact Or.inr rfl
            · exact Or.inl rfl
          · simp only [stateAt, Function.update_same]
            cases b <;> simp
          · intro hab
            simp only [stateAt, Function.update_same] at hab
            cases b with
            | true => simp at hab
            | false => rw [← hv]; rfl
  | p3 =>
      cases hval : validateOp op with
      | error e =>
          rw [show handleReq (voteReq .p3 txid op) p = (p, []) from by
            simp [voteReq, handleReq, hval]] at hrun
          injection hrun with h1 h2
          rw [← h2] at hrep
          simp [replyOf] at hrep
      | ok b =>
          have hx : handleReq (voteReq .p3 txid op) p
              = ({ p with
                   tx := Function.update p.tx txid (some ⟨.READY, some op⟩),
                   wal := walAppendStr p.wal
                            (txid ++ spc ++ sCAN_COMMIT ++ spc
                              ++ (if b then sYES else sNO) ++ spc ++ jsonDumps op) },
                 [Ev.walAppend (txid ++ spc ++ sCAN_COMMIT ++ spc
                     ++ (if b then sYES else sNO) ++ spc ++ jsonDumps op),
                  Ev.reply 200 (.voteR (if b then sYES else sNO))]) := by
            simp [voteReq, handleReq, hval]
          rw [hx] at hrun
          injection hrun with h1 h2
          rw [← h2] at hrep
          simp only [replyOf, List.findSome?] at hrep
          have hv : (if b then sYES else sNO) = v := by simpa using hrep
          subst h1
          refine ⟨?_, ?_, ?_⟩
          · rw [← hv]; cases b
            · exact Or.inr rfl
            · exact Or.inl rfl
          · simp [stateAt, Function.update_same]
          · intro hab
            simp [stateAt, Function.update_same] at hab

/-- Every protocol step preserves the system invariant. -/
lemma sysInv_preserved {n : Nat} (pr : Proto) (txid : PStr) (op : Op)
    {s s1 : Sys n} (hst : Step pr txid op s s1) (hinv : SysInv txid s) :
    SysInv txid s1 := by
  obtain ⟨hcol, hdec, hcom, habt, hack⟩ := hinv
  cases hst with
  | voteRecv i v p1 evs hph hv hrun hrep =>
      obtain ⟨hvyn, hnc, hna⟩ := voteRecv_analysis pr txid op _ p1 evs v hrun hrep
      refine ⟨fun _ => hcol hph, ?_, ?_, ?_, ?_⟩
      · intro d hd
        show s.log = [d] ∧ d = sysDecision (Function.update s.votes i (some v))
          ∧ ∀ j, ((Function.update s.votes i (some v)) j).isSome
        have hd2 : s.phase = .decided d := hd
        rw [hph] at hd2
        simp at hd2
      · intro j hj
        by_cases hji : j = i
        · subst hji
          rw [show stateAt txid ((Function.update s.parts j p1) j) = stateAt txid p1 from by
            rw [Function.update_same]] at hj
          exact absurd hj hnc
        · rw [show stateAt txid ((Function.update s.parts i p1) j)
              = stateAt txid (s.parts j) from by rw [Function.update_noteq hji]] at hj
          exact hcom j hj
      · intro j hj
        by_cases hji : j = i
        · subst hji
          rw [show stateAt txid ((Function.update s.parts j p1) j) = stateAt txid p1 from by
            rw [Function.update_same]] at hj
          left; left
          show (Function.update s.votes j (some v)) j = some sNO
          rw [Function.update_same, hna hj]
        · rw [show stateAt txid ((Function.update s.parts i p1) j)
              = stateAt txid (s.parts j) from by rw [Function.update_noteq hji]] at hj
          rcases habt j hj with hn | hp
          · left
            show (Function.update s.votes i (some v)) j = some sNO
              ∨ (Function.update s.votes i (some v)) j = some sNoTimeout
            rw [Function.update_noteq hji]
            exact hn
          · right; exact hp
      · intro a ha; exact hack a ha
  | voteFailProc i hph hv =>
      refine ⟨fun _ => hcol hph, ?_, ?_, ?_, ?_⟩
      · intro d hd
        have hd2 : s.phase = .decided d := hd
        rw [hph] at hd2
        simp at hd2
      · intro j hj
        by_cases hji : j = i
        · subst hji
          rw [show stateAt txid ((Function.update s.parts j
                (handleReq (voteReq pr txid op) (s.parts j)).1) j)
              = stateAt txid ((handleReq (voteReq pr txid op) (s.parts j)).1) from by
            rw [Function.update_same]] at hj
          exact hcom j (vote_handler_no_commit pr txid op _ hj)
        · rw [show stateAt txid ((Function.update s.parts i
                (handleReq (voteReq pr txid op) (s.parts i)).1) j)
              = stateAt txid (s.parts j) from by rw [Function.update_noteq hji]] at hj
          exact hcom j hj
      · intro j hj
        by_cases hji : j = i
        · subst hji
          left; right
          show (Function.update s.votes j (some sNoTimeout)) j = some sNoTimeout
          rw [Function.update_same]
        · rw [show stateAt txid ((Function.update s.parts i
                (handleReq (voteReq pr txid op) (s.parts i)).1) j)
              = stateAt txid (s.parts j) from by rw [Function.update_noteq hji]] at hj
          rcases habt j hj with hn | hp
          · left
            show (Function.update s.votes i (some sNoTimeout)) j = some sNO
              ∨ (Function.update s.votes i (some sNoTimeout)) j = some sNoTimeout
            rw [Function.update_noteq hji]
            exact hn
          · right; exact hp
      · intro a ha; exact hack a ha
  | voteFailLost i hph hv =>
      refine ⟨fun _ => hcol hph, ?_, ?_, ?_, ?_⟩
      · intro d hd
        have hd2 : s.phase = .decided d := hd
        rw [hph] at hd2
        simp at hd2
      · intro j hj; exact hcom j hj
      · intro j hj
        by_cases hji : j = i
        · subst hji
          left; right
          show (Function.update s.votes j (some sNoTimeout)) j = some sNoTimeout
          rw [Function.update_same]
        · rcases habt j hj with hn | hp
          · left
            show (Function.update s.votes i (some sNoTimeout)) j = some sNO
              ∨ (Function.update s.votes i (some sNoTimeout)) j = some sNoTimeout
            rw [Function.update_noteq hji]
            exact hn
          · right; exact hp
      · intro a ha; exact hack a ha
  | precommitSend i hpr hph hall =>
      refine ⟨fun _ => hcol hph, ?_, ?_, ?_, ?_⟩
      · intro d hd
        have hd2 : s.phase = .decided d := hd
        rw [hph] at hd2
        simp at hd2
      · intro j hj
        by_cases hji : j = i
        · subst hji
          rw [show stateAt txid ((Function.update s.parts j
                (handleReq (.precommit txid) (s.parts j)).1) j)
              = stateAt txid ((handleReq (.precommit txid) (s.parts j)).1) from by
            rw [Function.update_same]] at hj
          rcases precommit_handler_states txid (s.parts j) with hpc | hpc
          · rw [hpc] at hj; simp at hj
          · rw [hpc] at hj; exact hcom j hj
        · rw [show stateAt txid ((Function.update s.parts i
                (handleReq (.precommit txid) (s.parts i)).1) j)
              = stateAt txid (s.parts j) from by rw [Function.update_noteq hji]] at hj
          exact hcom j hj
      · intro j hj
        by_cases hji : j = i
        · subst hji
          rw [show stateAt txid ((Function.update s.parts j
                (handleReq (.precommit txid) (s.parts j)).1) j)
              = stateAt txid ((handleReq (.precommit txid) (s.parts j)).1) from by
            rw [Function.update_same]] at hj
          rcases precommit_handler_states txid (s.parts j) with hpc | hpc
          · rw [hpc] at hj; simp at hj
          · rw [hpc] at hj; exact habt j hj
        · rw [show stateAt txid ((Function.update s.parts i
                (handleReq (.precommit txid) (s.parts i)).1) j)
              = stateAt txid (s.parts j) from by rw [Function.update_noteq hji]] at hj
          exact habt j hj
      · intro a ha; exact hack a ha
  | decide hph hdone =>
      refine ⟨?_, ?_, ?_, ?_, ?_⟩
      · intro h
        have h2 : CPhase.decided (sysDecision s.votes) = .collecting := h
        simp at h2
      · intro d hd
        have hd2 : CPhase.decided (sysDecision s.votes) = .decided d := hd
        injection hd2 with he
        subst he
        exact ⟨by rw [hcol hph]; rfl, rfl, hdone⟩
      · intro j hj
        have h2 := hcom j hj
        rw [hph] at h2
        simp at h2
      · intro j hj
        rcases habt j hj with hn | hp
        · left; exact hn
        · rw [hph] at hp; simp at hp
      · intro a ha
        have h2 := hack a ha
        rw [hph] at h2
        simp at h2
  | deliver i d p1 evs hph hrun =>
      have hphase1 : ∀ a ∈ (if replyOf evs = some (200, Reply.okR)
          then s.acks ++ [d] else s.acks), s.phase = .decided a := by
        intro a ha
        by_cases hre : replyOf evs = some (200, Reply.okR)
        · rw [if_pos hre, List.mem_append, List.mem_singleton] at ha
          rcases ha with ha | rfl
          · exact hack a ha
          · exact hph
        · rw [if_neg hre] at ha
          exact hack a ha
      by_cases hd : d = sCOMMIT
      · rw [if_pos hd] at hrun
        have hp1 : p1 = (handleReq (.commit txid) (s.parts i)).1 := by
          rw [hrun]
        refine ⟨?_, ?_, ?_, ?_, hphase1⟩
        · intro h
          have h2 : s.phase = .collecting := h
          rw [hph] at h2
          simp at h2
        · intro d2 hd2; exact hdec d2 hd2
        · intro j hj
          subst hd
          exact hph
        · intro j hj
          by_cases hji : j = i
          · subst hji
            rw [show stateAt txid ((Function.update s.parts j p1) j) = stateAt txid p1 from by
              rw [Function.update_same]] at hj
            rw [hp1] at hj
            rcases commit_handler_states txid (s.parts j) with hcs | hcs
            · rw [hcs] at hj; simp at hj
            · rw [hcs] at hj
              rcases habt j hj with hn | hp
              · left; exact hn
              · right; exact hp
          · rw [show stateAt txid ((Function.update s.parts i p1) j)
                = stateAt txid (s.parts j) from by rw [Function.update_noteq hji]] at hj
            exact habt j hj
      · rw [if_neg hd] at hrun
        have hp1 : p1 = (handleReq (.abort txid) (s.parts i)).1 := by
          rw [hrun]
        have hdab : d = sABORT := by
          obtain ⟨_, hd0, _⟩ := hdec d hph
          rcases sysDecision_cases s.votes with hc | hc
          · exact absurd (hd0.trans hc) hd
          · exact hd0.trans hc
        refine ⟨?_, ?_, ?_, ?_, hphase1⟩
        · intro h
          have h2 : s.phase = .collecting := h
          rw [hph] at h2
          simp at h2
        · intro d2 hd2; exact hdec d2 hd2
        · intro j hj
          by_cases hji : j = i
          · subst hji
            rw [show stateAt txid ((Function.update s.parts j p1) j) = stateAt txid p1 from by
              rw [Function.update_same]] at hj
            rw [hp1, abort_handler_state] at hj
            simp at hj
          · rw [show stateAt txid ((Function.update s.parts i p1) j)
                = stateAt txid (s.parts j) from by rw [Function.update_noteq hji]] at hj
            exact hcom j hj
        · intro j hj
          right
          rw [← hdab]
          exact hph

/-- Every reachable state satisfies the invariant. -/
lemma reach_sysInv {n : Nat} (pr : Proto) (txid : PStr) (op : Op) {s : Sys n}
    (h : Reach pr txid op s) : SysInv txid s := by
  induction h with
  | init =>
      refine ⟨fun _ => rfl, ?_, ?_, ?_, ?_⟩
      · intro d hd
        have h2 : CPhase.collecting = .decided d := hd
        simp at h2
      · intro i hi
        have h2 : (none : Option TxState) = some TxState.COMMITTED := hi
        simp at h2
      · intro i hi
        have h2 : (none : Option TxState) = some TxState.ABORTED := hi
        simp at h2
      · intro a ha
        have h2 : a ∈ ([] : List PStr) := ha
        simp at h2
  | step hr hst ih => exact sysInv_preserved _ _ _ hst ih

/-- C1.  Agreement.  In every reachable state of the protocol system (either
protocol, any number of participants, any interleaving of vote collection,
loss, timeout, decision, delivery and retries): for every decision `D` the
coordinator has appended to its WAL for this transaction, every participant
whose record is in a terminal state is `COMMITTED` iff `D = COMMIT` (and
`ABORTED` iff `D = ABORT`), and every decision a participant has
acknowledged equals `D`. -/
theorem C1_agreement {n : Nat} (pr : Proto) (txid : PStr) (op : Op) (s : Sys n)
    (hreach : Reach pr txid op s) (d : PStr) (hd : d ∈ s.log) :
    (∀ (i : Fin n) (t : TxState), stateAt txid (s.parts i) = some t →
        (t = .COMMITTED ∨ t = .ABORTED) → (t = .COMMITTED ↔ d = sCOMMIT))
    ∧ (∀ a ∈ s.acks, a = d) := by
  obtain ⟨hcol, hdec, hcom, habt, hack⟩ := reach_sysInv pr txid op hreach
  cases hph : s.phase with
  | collecting =>
      rw [hcol hph] at hd
      simp at hd
  | decided d0 =>
      obtain ⟨hlog, hd0, hcompl⟩ := hdec d0 hph
      rw [hlog, List.mem_singleton] at hd
      subst hd
      constructor
      · intro i t ht hterm
        constructor
        · intro hc
          subst hc
          have h2 := hcom i ht
          rw [hph] at h2
          injection h2 with he
        · intro hc
          rcases hterm with rfl | rfl
          · rfl
          · rcases habt i ht with hvote | habort
            · have hally : ∀ j, s.votes j = some sYES :=
                (sysDecision_commit_iff s.votes).mp (hd0 ▸ hc)
              rcases hvote with h1 | h1
              · rw [hally i] at h1
                injection h1 with he
                exact absurd he (by decide)
              · rw [hally i] at h1
                injection h1 with he
                exact absurd he (by decide)
            · rw [hph] at habort
              injection habort with he
              rw [hc] at he
              exact absurd he (by decide)
      · intro a ha
        have h2 := hack a ha
        rw [hph] at h2
        injection h2 with he
        exact he.symm

/-- Witness for C1: a concrete one-participant 2PC run — `YES` vote
received, decision taken (`COMMIT`), decision delivered — reaches a state
where the theorem applies: the participant's terminal state is `COMMITTED`
iff the logged decision is `COMMIT`. -/
theorem C1_agreement_witness :
    TxState.COMMITTED = TxState.COMMITTED ↔ sCOMMIT = sCOMMIT := by
  have h0 : Reach Proto.p2 txT opSET (initSys 1) := Reach.init
  have h1 := Reach.step h0 (Step.voteRecv (initSys 1) 0 sYES
    (handleReq (voteReq .p2 txT opSET) ((initSys 1).parts 0)).1
    (handleReq (voteReq .p2 txT opSET) ((initSys 1).parts 0)).2
    rfl rfl rfl (by decide))
  have h2 := Reach.step h1 (Step.decide _ rfl (by decide))
  have h3 := Reach.step h2 (Step.deliver _ 0 sCOMMIT _ _ (by decide) rfl)
  have hfinal := C1_agreement .p2 txT opSET _ h3 sCOMMIT (by decide)
  exact hfinal.1 0 .COMMITTED (by decide) (Or.inl rfl)

end DC
